import Mathlib

/-! TIC-80 virtual file system (`src/studio/fs.c`).

A shallow embedding of the POSIX build of `fs.c` (neither `__TIC_WINDOWS__`,
`BAREMETALPI` nor `__EMSCRIPTEN__` defined).

Conventions of the embedding.

* A byte (`char`, `u8`) is a `Nat`; `0` is the terminator, `47` is `'/'` and
  `46` is `'.'`.
* A `char[N]` array is a `List Nat` of length `N` (a *buffer*).  A
  `const char*` argument is the `List Nat` of the bytes in front of its
  terminator (a *string*, by convention without a `0`).
* Writing past the end of a buffer or reading a string that has no
  terminator inside its buffer is undefined behaviour; the string functions
  return `none` there, and an execution that meets it stops with the status
  `Status.undefined`, keeping the calls it has made.
* Whether `malloc` returns a buffer, what `fread` leaves in it and what
  `fwrite` and `fclose` leave in a file are answers of the environment
  (fields of `Disk`), as are the results of `stat`, `fopen` and `opendir`.
* A `(buffer, size)` pair handed to `fs.c` (the payload of a response, the
  data to write) is one `List Nat`, `size` being its length.
* Constants that `fs.c` takes from headers (`TIC_HOST`, `TIC_CACHE`,
  `TICNAME_MAX`) and the size of a pointer are the fields of `Build`.
* A failing `stat` leaves its `struct stat` argument as it was.
* Callbacks act on the object behind their `void* data` only: they do not
  call back into the file system and do not change the disk.
* The interpreter made by `luaL_newstate` has no library open, so no value
  has a metatable: indexing a table reads a field, and indexing anything else
  raises a Lua error, which outside a protected call ends the process
  (`Status.aborted`).
-/

namespace TicFs

set_option maxRecDepth 100000

/-! ## Build constants -/

/-- The constants `fs.c` takes from its headers and from the target ABI. -/
structure Build where
  /-- Bytes of the string literal `TIC_HOST`, the public namespace name. -/
  TIC_HOST : List Nat
  /-- Bytes of the string literal `TIC_CACHE`, the cache subdirectory. -/
  TIC_CACHE : List Nat
  /-- Capacity `TICNAME_MAX` of every path buffer. -/
  TICNAME_MAX : Nat
  /-- Value of `sizeof(const char*)`: 8 on a 64-bit target, 4 on a 32-bit one. -/
  sizeofPtr : Nat

/-- Bytes of an ASCII string literal. -/
def ascii (s : String) : List Nat := s.toList.map Char.toNat

/-- The upstream values of the constants on a 64-bit target. -/
def tic80 : Build where
  TIC_HOST := ascii "tic80.com"
  TIC_CACHE := ascii ".local/cache/"
  TICNAME_MAX := 256
  sizeofPtr := 8

/-! ## C strings and buffers -/

/-- The string a buffer holds: its bytes in front of the first terminator. -/
def cstr (m : List Nat) : List Nat := m.takeWhile (· ≠ 0)

/-- C library `strlen(m)`; undefined when the buffer has no terminator. -/
def strlen (m : List Nat) : Option Nat :=
  if 0 ∈ m then some (cstr m).length else none

/-- Store the bytes `bs` into `m` from offset `off` on; undefined when they
    do not fit. -/
def poke (m : List Nat) (off : Nat) (bs : List Nat) : Option (List Nat) :=
  if off + bs.length ≤ m.length then
    some (m.take off ++ bs ++ m.drop (off + bs.length))
  else none

/-- C library `strcpy(dst, src)` for a buffer `dst` and a string `src`. -/
def strcpy (dst src : List Nat) : Option (List Nat) :=
  poke dst 0 (src ++ [0])

/-- C library `strcat(dst, src)` for a buffer `dst` and a string `src`. -/
def strcat (dst src : List Nat) : Option (List Nat) :=
  (strlen dst).bind fun n => poke dst n (src ++ [0])

/-- C library `memset(m, c, n)`. -/
def memset (m : List Nat) (c n : Nat) : Option (List Nat) :=
  poke m 0 (List.replicate n c)

/-- First difference of two byte sequences of equal length, `0` when none. -/
def firstDiff : List Nat → List Nat → Int
  | a :: as, b :: bs => if a = b then firstDiff as bs else (a : Int) - (b : Int)
  | _, _ => 0

/-- C library `memcmp(a, b, n)`; undefined when an object has fewer than `n` bytes. -/
def memcmp (a b : List Nat) (n : Nat) : Option Int :=
  if n ≤ a.length ∧ n ≤ b.length then some (firstDiff (a.take n) (b.take n))
  else none

/-- C library `strcmp(a, b)` on two buffers; undefined when the comparison runs off
    the end of one of them. -/
def strcmp : List Nat → List Nat → Option Int
  | a :: as, b :: bs =>
    if a ≠ b then some ((a : Int) - (b : Int))
    else if a = 0 then some 0
    else strcmp as bs
  | _, _ => none

/-- The string left in a character array of capacity `cap` by a `sprintf` or
    `strcpy` that produces `s`; undefined when `s` and its terminator do
    not fit. -/
def sprintf (cap : Nat) (s : List Nat) : Option (List Nat) :=
  if s.length + 1 ≤ cap then some s else none

/-! ## The file-system handle -/

/-- The `struct FileSystem`; the `net` handle is not inspected by `fs.c`. -/
structure FileSystem where
  /-- Buffer `char dir[TICNAME_MAX]`, the storage root. -/
  dir : List Nat
  /-- Buffer `char work[TICNAME_MAX]`, the working directory. -/
  work : List Nat
deriving DecidableEq, Repr

/-- The object `PublicDir` points to: the literal `TIC_HOST` and its
    terminator. -/
def PublicDir (B : Build) : List Nat := B.TIC_HOST ++ [0]

/-- Source function `fsGetRootFilePath`: `sprintf(path, "%s%s", fs->dir, name)`. -/
def fsGetRootFilePath (B : Build) (fs : FileSystem) (name : List Nat) :
    Option (List Nat) :=
  (strlen fs.dir).bind fun _ => sprintf B.TICNAME_MAX (cstr fs.dir ++ name)

/-- Source function `fsGetFilePath`. -/
def fsGetFilePath (B : Build) (fs : FileSystem) (name : List Nat) :
    Option (List Nat) :=
  let path : Option (List Nat) :=
    if name.head? = some 47 then
      sprintf B.TICNAME_MAX (name.drop 1)
    else
      (strlen fs.work).bind fun n =>
        if n ≠ 0 then sprintf B.TICNAME_MAX (cstr fs.work ++ [47] ++ name)
        else sprintf B.TICNAME_MAX name
  path.bind fun p => fsGetRootFilePath B fs p

/-- Source function `isRoot`: `fs->work[0] == 0`. -/
def isRoot (fs : FileSystem) : Bool := fs.work.head? == some 0

/-- Source function `isPublicRoot`: `strcmp(fs->work, PublicDir) == 0`. -/
def isPublicRoot (B : Build) (fs : FileSystem) : Option Bool :=
  (strcmp fs.work (PublicDir B)).map (· == 0)

/-- Source function `isPublic`: `memcmp(fs->work, PublicDir, sizeof PublicDir - 1) == 0`,
    where `PublicDir` is a `const char*`, so that `sizeof PublicDir` is the
    size of a pointer. -/
def isPublic (B : Build) (fs : FileSystem) : Option Bool :=
  (memcmp fs.work (PublicDir B) (B.sizeofPtr - 1)).map (· == 0)

/-- Source function `fsIsInPublicDir`. -/
def fsIsInPublicDir (B : Build) (fs : FileSystem) : Option Bool := isPublic B fs

/-- A buffer of capacity `cap` that holds the string `s` and is zero
    elsewhere. -/
def zeroBuf (cap : Nat) (s : List Nat) : List Nat :=
  s ++ List.replicate (cap - s.length) 0

/-! ## Working-directory navigator -/

/-- Source function `createFileSystem`: a zeroed handle whose `dir` is `path`, with `SEP`
    appended when `path` does not end in it.  Reading `path[strlen(path) - 1]`
    of an empty `path` is undefined. -/
def createFileSystem (B : Build) (path : List Nat) : Option FileSystem :=
  (strcpy (List.replicate B.TICNAME_MAX 0) path).bind fun dir =>
    match path.getLast? with
    | none => none
    | some c =>
      (if c ≠ 47 then strcat dir [47] else some dir).map fun dir =>
        { dir := dir, work := List.replicate B.TICNAME_MAX 0 }

/-- Source function `fsHomeDir`: `memset(fs->work, 0, sizeof fs->work)`. -/
def fsHomeDir (fs : FileSystem) : FileSystem :=
  { fs with work := List.replicate fs.work.length 0 }

/-- First loop of `fsDirBack`, `while (ptr > start && *ptr != '/') ptr--`,
    on the offset `ptr - start`. -/
def scanBack (m : List Nat) : Nat → Nat
  | 0 => 0
  | p + 1 => if m.getD (p + 1) 0 ≠ 47 then scanBack m p else p + 1

/-- Second loop of `fsDirBack`, `while (*ptr) *ptr++ = 0`, on the bytes from
    `ptr` on; undefined when it runs past the end of the buffer. -/
def zeroRun : List Nat → Option (List Nat)
  | [] => none
  | c :: cs => if c ≠ 0 then (zeroRun cs).map (0 :: ·) else some (c :: cs)

/-- Source function `fsDirBack`. -/
def fsDirBack (B : Build) (fs : FileSystem) : Option FileSystem :=
  (isPublicRoot B fs).bind fun pub =>
    if pub then some (fsHomeDir fs)
    else
      (strlen fs.work).bind fun n =>
        let ptr := scanBack fs.work n
        (zeroRun (fs.work.drop ptr)).map fun t =>
          { fs with work := fs.work.take ptr ++ t }

/-- Source function `fsGetDir`: the string copied out by `strcpy(dir, fs->work)`. -/
def fsGetDir (fs : FileSystem) : Option (List Nat) :=
  (strlen fs.work).map fun _ => cstr fs.work

/-- Source function `fsChangeDir`. -/
def fsChangeDir (fs : FileSystem) (dir : List Nat) : Option FileSystem :=
  (strlen fs.work).bind fun n =>
    (if n ≠ 0 then strcat fs.work [47] else some fs.work).bind fun work =>
      (strcat work dir).map fun work => { fs with work := work }

/-! ## Collaborators: disk, callbacks, network, script evaluator -/

/-- What the OS file primitives and the allocator answer, per concrete path.
    Two different path strings are two different files. -/
structure Disk where
  /-- The `st_mode` when `stat(path, &s)` succeeds. -/
  stat : List Nat → Option Nat
  /-- Contents of the file when `fopen(path, "rb")` succeeds. -/
  fopen_rb : List Nat → Option (List Nat)
  /-- Whether `fopen(path, "wb")` succeeds. -/
  fopen_wb : List Nat → Bool
  /-- The `d_name` of every entry in `readdir` order when `opendir(path)`
      succeeds. -/
  opendir : List Nat → Option (List (List Nat))
  /-- Whether `malloc(n)` returns a non-null pointer, `n` being the `s32` value
      the call is given (the call converts it to `size_t`). -/
  malloc : Int → Bool
  /-- The bytes in the buffer after `fread(buffer, n, 1, file)` on the file
      just opened at `path`, `n` being the `s32` value the call is given: the
      first `n` bytes of the file when the read succeeds, anything else when
      it does not. -/
  fread : List Nat → Int → List Nat
  /-- The contents of the file after `fwrite(buffer, 1, size, file)` and
      `fclose(file)` on the file just opened for writing at `path`: `buffer`
      when both succeed, anything else (a part of it, nothing) when they do
      not. -/
  fwrite : List Nat → List Nat → List Nat
  /-- The file mode creation mask of the process. -/
  umask : Nat

/-- Constant `S_IFREG`. -/
def S_IFREG : Nat := 0o100000

/-- Macro `S_ISDIR(m)`. -/
def S_ISDIR (m : Nat) : Bool := m &&& 0o170000 == 0o040000

/-- Macro `S_ISREG(m)`. -/
def S_ISREG (m : Nat) : Bool := m &&& 0o170000 == S_IFREG

/-- Mode of a file that `fopen(path, "wb")` creates: a regular file with the
    permissions `0666` less the bits of the mask. -/
def createdMode (umask : Nat) : Nat :=
  S_IFREG ||| (0o666 &&& (0o777 ^^^ (umask &&& 0o777)))

/-- Effect of `fopen(path, "wb")`, `fwrite(bytes, 1, size, file)` and
    `fclose(file)` on a path that can be opened for writing; the results of
    `fwrite` and `fclose` are not looked at.  The file holds what the write
    left in it (`bytes` when `fwrite` and `fclose` succeed); the mode of an
    existing file is kept, a new one gets `createdMode`. -/
def Disk.written (d : Disk) (path bytes : List Nat) : Disk :=
  { d with
    stat := fun q =>
      if q = path then some ((d.stat path).getD (createdMode d.umask)) else d.stat q
    fopen_rb := fun q => if q = path then some (d.fwrite path bytes) else d.fopen_rb q }

/-- Conversion of a `long` to `s32`. -/
def toS32 (n : Int) : Int := (n + 2 ^ 31) % 2 ^ 32 - 2 ^ 31

/-- A `const char*` argument as a callback sees it. -/
inductive StrArg
  /-- The pointer `NULL`. -/
  | null
  /-- A pointer to a terminated string. -/
  | str (s : List Nat)
  /-- A pointer to an array that has not been written since its declaration. -/
  | indeterminate
deriving DecidableEq, Repr

/-- Which completion handler a `netGet` was given, with its call data. -/
inductive NetCallback
  /-- Handler `onDirResponse`. -/
  | onDirResponse
  /-- Handler `fileByHashLoaded` with the `cachePath` of its call data. -/
  | fileByHashLoaded (cachePath : List Nat)
deriving DecidableEq, Repr

/-- The calls `fs.c` makes to its callers and collaborators. -/
inductive Event
  /-- A `ListCallback` invocation `(name, info, id, data, dir)`. -/
  | item (name info : StrArg) (id : Int) (dir : Bool)
  /-- A `DoneCallback` invocation. -/
  | done
  /-- A `LoadCallback` invocation `(buffer, size, data)`. -/
  | load (buffer : List Nat) (size : Int)
  /-- A `netGet(fs->net, path, callback, calldata)`. -/
  | netGet (path : List Nat) (callback : NetCallback)
  /-- An `opendir(path)`, the start of a local directory scan. -/
  | opendir (path : List Nat)
deriving DecidableEq, Repr

/-- Type `ListCallback`: `(name, info, id, data, dir)` to the answer and the new
    contents of `data`. -/
abbrev ListCallback (σ : Type) := StrArg → StrArg → Int → σ → Bool → Bool × σ

/-- Type `DoneCallback`. -/
abbrev DoneCallback (σ : Type) := σ → σ

/-- Type `LoadCallback`: `(buffer, size, data)`, with `size` an `s32`. -/
abbrev LoadCallback (σ : Type) := List Nat → Int → σ → σ

/-- How far an execution got. -/
inductive Status
  /-- Still running or returned normally. -/
  | ok
  /-- Left defined behaviour (a buffer overrun). -/
  | undefined
  /-- Terminated by an unprotected Lua error. -/
  | aborted
deriving DecidableEq, Repr

/-- An execution in progress: the object behind `void* data`, the disk, the
    calls made so far (oldest first) and the status. -/
structure Run (σ : Type) where
  /-- Contents of the object behind `void* data`. -/
  data : σ
  /-- State of the disk. -/
  disk : Disk
  /-- Calls made so far, oldest first. -/
  trace : List Event
  /-- Status of the execution. -/
  status : Status

/-- The execution before any call. -/
def Run.start {σ : Type} (data : σ) (disk : Disk) : Run σ :=
  { data := data, disk := disk, trace := [], status := .ok }

/-- Record a call to a collaborator. -/
def Run.emit {σ : Type} (r : Run σ) (e : Event) : Run σ :=
  { r with trace := r.trace ++ [e] }

/-- Stop with the given status. -/
def Run.stop {σ : Type} (r : Run σ) (s : Status) : Run σ :=
  { r with status := s }

/-- Invoke a `ListCallback`. -/
def Run.callItem {σ : Type} (r : Run σ) (cb : ListCallback σ)
    (name info : StrArg) (id : Int) (dir : Bool) : Bool × Run σ :=
  ((cb name info id r.data dir).1,
    { r with data := (cb name info id r.data dir).2,
             trace := r.trace ++ [Event.item name info id dir] })

/-- Invoke a `DoneCallback`. -/
def Run.callDone {σ : Type} (r : Run σ) (cb : DoneCallback σ) : Run σ :=
  { r with data := cb r.data, trace := r.trace ++ [Event.done] }

/-- Invoke a `LoadCallback`. -/
def Run.callLoad {σ : Type} (r : Run σ) (cb : LoadCallback σ)
    (buffer : List Nat) (size : Int) : Run σ :=
  { r with data := cb buffer size r.data, trace := r.trace ++ [Event.load buffer size] }

/-- The `HttpGetData` a completion handler receives. -/
inductive HttpGetData
  /-- Type `HttpGetProgress`. -/
  | progress
  /-- Type `HttpGetDone` with `done.data` and `done.size`. -/
  | done (data : List Nat)
  /-- Type `HttpGetError`. -/
  | error
deriving DecidableEq, Repr

/-- A Lua value as far as `onDirResponse` inspects the result of
    `lua_getfield`. -/
inductive LuaValue
  /-- Value `nil`: the field is absent. -/
  | nil
  /-- A number of integer subtype. -/
  | integer (n : Int)
  /-- A number of float subtype, with the text `lua_tostring` gives for it. -/
  | float (text : List Nat)
  /-- A string. -/
  | string (s : List Nat)
  /-- Any other value (boolean, table, function). -/
  | other
deriving DecidableEq, Repr

/-- An element of the `folders` or `files` sequence. -/
inductive LuaElem
  /-- A table, with what its `name`, `hash` and `id` fields hold. -/
  | record (name hash id : LuaValue)
  /-- A value that is not a table; indexing it raises a Lua error. -/
  | nonTable
deriving DecidableEq, Repr

/-- The global `folders` or `files`. -/
inductive LuaGlobal
  /-- A table whose sequence part has these elements. -/
  | table (elems : List LuaElem)
  /-- Anything else, `nil` included. -/
  | nonTable
deriving DecidableEq, Repr

/-- The interpreter state after the payload has run. -/
structure LuaState where
  /-- Global `folders`. -/
  folders : LuaGlobal
  /-- Global `files`. -/
  files : LuaGlobal
deriving DecidableEq, Repr

/-- Lua API `lua_isstring`: a string or a number. -/
def lua_isstring : LuaValue → Bool
  | .integer _ => true
  | .float _ => true
  | .string _ => true
  | _ => false

/-- Lua API `lua_isinteger`. -/
def lua_isinteger : LuaValue → Bool
  | .integer _ => true
  | _ => false

/-- Lua API `lua_tostring` of a value that passes `lua_isstring`, as the C string the
    returned pointer designates. -/
def lua_tostring : LuaValue → List Nat
  | .integer n => ascii (toString n)
  | .float text => cstr text
  | .string s => cstr s
  | _ => []

/-- The cast `(s32)lua_tointeger`. -/
def lua_tointeger_s32 : LuaValue → Int
  | .integer n => (n + 2 ^ 31) % 2 ^ 32 - 2 ^ 31
  | _ => 0

/-! ## Remote listing decoder -/

/-- Source function `netLuaInit`: the payload, cut at its first zero byte by the copy into a
    terminated script, is loaded and run by the script evaluator `lua`; `NULL`
    for an empty payload or when loading or running fails. -/
def netLuaInit (lua : List Nat → Option LuaState) (buffer : List Nat) :
    Option LuaState :=
  if buffer ≠ [] then lua (cstr buffer) else none

/-- The `NetDirData` call data; its `data` pointer is the `data` of the run. -/
structure NetDirData (σ : Type) where
  /-- Field `item`. -/
  item : ListCallback σ
  /-- Field `done`. -/
  done : DoneCallback σ

/-- Loop over `folders` in `onDirResponse`. -/
def foldersLoop {σ : Type} (netDirData : NetDirData σ) : List LuaElem → Run σ → Run σ
  | [], r => r
  | .nonTable :: _, r => r.stop .aborted
  | .record name _ _ :: rest, r =>
    if lua_isstring name then
      foldersLoop netDirData rest
        (r.callItem netDirData.item (.str (lua_tostring name)) .null 0 true).2
    else foldersLoop netDirData rest r

/-- The array `hash` or `name` of one iteration of the `files` loop:
    indeterminate at its declaration, written by `strcpy` when the field
    passes `lua_isstring`; `none` when the copy overruns the array. -/
def fieldArray (B : Build) (v : LuaValue) : Option StrArg :=
  if lua_isstring v then (sprintf B.TICNAME_MAX (lua_tostring v)).map StrArg.str
  else some StrArg.indeterminate

/-- Loop over `files` in `onDirResponse`. -/
def filesLoop {σ : Type} (B : Build) (netDirData : NetDirData σ) :
    List LuaElem → Run σ → Run σ
  | [], r => r
  | .nonTable :: _, r => r.stop .aborted
  | .record name hash id :: rest, r =>
    match fieldArray B hash with
    | none => r.stop .undefined
    | some hashArg =>
      match fieldArray B name with
      | none => r.stop .undefined
      | some nameArg =>
        if lua_isinteger id then
          filesLoop B netDirData rest
            (r.callItem netDirData.item nameArg hashArg (lua_tointeger_s32 id) false).2
        else filesLoop B netDirData rest r

/-- The part of `onDirResponse` that reads one global: nothing unless it is a
    table. -/
def overTable {σ : Type} (g : LuaGlobal) (loop : List LuaElem → Run σ → Run σ)
    (r : Run σ) : Run σ :=
  match g with
  | .table elems => loop elems r
  | .nonTable => r

/-- Source function `onDirResponse`. -/
def onDirResponse {σ : Type} (B : Build) (lua : List Nat → Option LuaState)
    (netData : HttpGetData) (netDirData : NetDirData σ) (r : Run σ) : Run σ :=
  let r :=
    match netData with
    | .done data =>
      match netLuaInit lua data with
      | some L =>
        let r := overTable L.folders (foldersLoop netDirData) r
        if r.status = .ok then overTable L.files (filesLoop B netDirData) r else r
      | none => r
    | _ => r
  if r.status = .ok then
    match netData with
    | .done _ => r.callDone netDirData.done
    | .error => r.callDone netDirData.done
    | .progress => r
  else r

/-! ## Directory enumerator -/

/-- The test `tic_stat(fullPath, &s) == 0 && folder ? S_ISDIR(s.st_mode) :
    S_ISREG(s.st_mode)` of `enumFiles`, in which `&&` binds tighter than `?:`;
    `st` is the outcome of the `stat` and `s` the `st_mode` in `s` after it. -/
def statTest (st : Option Nat) (folder : Bool) (s : Nat) : Bool :=
  if st.isSome && folder then S_ISDIR s else S_ISREG s

/-- The `readdir` loop of `enumFiles`; `s` is `s.st_mode` as the last
    successful `stat` left it (a failing `stat` leaves `s` as it was). -/
def readdirLoop {σ : Type} (B : Build) (path : List Nat) (callback : ListCallback σ)
    (folder : Bool) : List (List Nat) → Nat → Run σ → Run σ
  | [], _, r => r
  | d_name :: rest, s, r =>
    if d_name.head? ≠ some 46 then
      match sprintf B.TICNAME_MAX (path ++ d_name) with
      | none => r.stop .undefined
      | some fullPath =>
        if statTest (r.disk.stat fullPath) folder ((r.disk.stat fullPath).getD s) then
          if !(r.callItem callback (.str d_name) .null 0 folder).1 then
            (r.callItem callback (.str d_name) .null 0 folder).2
          else
            readdirLoop B path callback folder rest ((r.disk.stat fullPath).getD s)
              (r.callItem callback (.str d_name) .null 0 folder).2
        else readdirLoop B path callback folder rest ((r.disk.stat fullPath).getD s) r
    else readdirLoop B path callback folder rest s r

/-- Source function `enumFiles`; `s0` is the unspecified initial `st_mode` of the
    uninitialised `struct stat s`. -/
def enumFiles {σ : Type} (B : Build) (path : List Nat) (callback : ListCallback σ)
    (folder : Bool) (s0 : Nat) (r : Run σ) : Run σ :=
  let r := r.emit (.opendir path)
  match r.disk.opendir path with
  | some entries => readdirLoop B path callback folder entries s0 r
  | none => r

/-- The request `sprintf(request, "/api?fn=dir&path=%s", fs->work + sizeof(TIC_HOST))`. -/
def dirRequest (B : Build) (fs : FileSystem) : Option (List Nat) :=
  if B.TIC_HOST.length + 1 ≤ fs.work.length then
    (strlen (fs.work.drop (B.TIC_HOST.length + 1))).bind fun _ =>
      sprintf B.TICNAME_MAX
        (ascii "/api?fn=dir&path=" ++ cstr (fs.work.drop (B.TIC_HOST.length + 1)))
  else none

/-- What `fsEnumFilesAsync` does after the root announcement. -/
def enumDispatch {σ : Type} (B : Build) (fs : FileSystem) (onItem : ListCallback σ)
    (onDone : DoneCallback σ) (s1 s2 : Nat) (r : Run σ) : Run σ :=
  match isPublic B fs with
  | none => r.stop .undefined
  | some true =>
    match dirRequest B fs with
    | none => r.stop .undefined
    | some request => r.emit (.netGet request .onDirResponse)
  | some false =>
    match fsGetFilePath B fs [] with
    | none => r.stop .undefined
    | some path =>
      let r := enumFiles B path onItem true s1 r
      if r.status = .ok then
        let r := enumFiles B path onItem false s2 r
        if r.status = .ok then r.callDone onDone else r
      else r

/-- Source function `fsEnumFilesAsync`; `s1` and `s2` are the unspecified initial `st_mode`
    of the two `enumFiles` calls. -/
def fsEnumFilesAsync {σ : Type} (B : Build) (fs : FileSystem) (onItem : ListCallback σ)
    (onDone : DoneCallback σ) (s1 s2 : Nat) (r : Run σ) : Run σ :=
  if isRoot fs then
    let res := r.callItem onItem (.str B.TIC_HOST) .null 0 true
    if !res.1 then res.2.callDone onDone
    else enumDispatch B fs onItem onDone s1 s2 res.2
  else enumDispatch B fs onItem onDone s1 s2 r

/-! ## File operation facade -/

/-- Source function `fsWriteFile`: the result and the disk afterwards; `true`
    whenever `fopen` succeeded, whatever `fwrite` and `fclose` did. -/
def fsWriteFile (disk : Disk) (name buffer : List Nat) : Bool × Disk :=
  if disk.fopen_wb name then (true, disk.written name buffer) else (false, disk)

/-- Source function `fsReadFile`: `NULL`, or the buffer and `*size`.  The
    `long` that `ftell` returns, the length of the file, is stored in the `s32`
    `*size`; the result is what `malloc(*size)` returns, whatever `fread` did. -/
def fsReadFile (disk : Disk) (path : List Nat) : Option (List Nat × Int) :=
  match disk.fopen_rb path with
  | none => none
  | some contents =>
    if disk.malloc (toS32 contents.length) then
      some (disk.fread path (toS32 contents.length), toS32 contents.length)
    else none

/-- Source function `fsExists`. -/
def fsExists (disk : Disk) (name : List Nat) : Bool := (disk.stat name).isSome

/-- Source function `fsExistsFile`. -/
def fsExistsFile (B : Build) (fs : FileSystem) (disk : Disk) (name : List Nat) :
    Option Bool :=
  (fsGetFilePath B fs name).map (fsExists disk)

/-- Source function `fsSaveFile`: the result and the disk afterwards. -/
def fsSaveFile (B : Build) (fs : FileSystem) (disk : Disk) (name data : List Nat)
    (overwrite : Bool) : Option (Bool × Disk) :=
  (if !overwrite then fsExistsFile B fs disk name else some false).bind fun ex =>
    if ex then some (false, disk)
    else (fsGetFilePath B fs name).map fun path => fsWriteFile disk path data

/-- Source function `fsSaveRootFile`: the result and the disk afterwards. -/
def fsSaveRootFile (B : Build) (fs : FileSystem) (disk : Disk) (name data : List Nat)
    (overwrite : Bool) : Option (Bool × Disk) :=
  (fsGetRootFilePath B fs name).map fun path =>
    if !overwrite && fsExists disk path then (false, disk)
    else fsWriteFile disk path data

/-- Source function `fsLoadRootFile`. -/
def fsLoadRootFile (B : Build) (fs : FileSystem) (disk : Disk) (name : List Nat) :
    Option (Option (List Nat × Int)) :=
  (fsGetRootFilePath B fs name).map fun path => fsReadFile disk path

/-! ## Hash-addressable artifact cache -/

/-- The `LoadFileByHashData` call data; its `data` pointer is the `data` of
    the run. -/
structure LoadFileByHashData (σ : Type) where
  /-- Field `fs`. -/
  fs : FileSystem
  /-- Field `done`. -/
  done : LoadCallback σ
  /-- Field `cachePath`. -/
  cachePath : List Nat

/-- Source function `fileByHashLoaded`. -/
def fileByHashLoaded {σ : Type} (B : Build) (netData : HttpGetData)
    (loadFileByHashData : LoadFileByHashData σ) (r : Run σ) : Run σ :=
  match netData with
  | .done data =>
    match fsSaveRootFile B loadFileByHashData.fs r.disk loadFileByHashData.cachePath
        data false with
    | none => r.stop .undefined
    | some saved =>
      ({ r with disk := saved.2 }).callLoad loadFileByHashData.done data
        (Int.ofNat data.length)
  | _ => r

/-- Source function `fsLoadFileByHashAsync`. -/
def fsLoadFileByHashAsync {σ : Type} (B : Build) (fs : FileSystem) (hash : List Nat)
    (callback : LoadCallback σ) (r : Run σ) : Run σ :=
  match sprintf B.TICNAME_MAX (B.TIC_CACHE ++ hash ++ ascii ".tic") with
  | none => r.stop .undefined
  | some cachePath =>
    match fsLoadRootFile B fs r.disk cachePath with
    | none => r.stop .undefined
    | some (some loaded) => r.callLoad callback loaded.1 loaded.2
    | some none =>
      match sprintf B.TICNAME_MAX (ascii "/cart/" ++ hash ++ ascii "/cart.tic") with
      | none => r.stop .undefined
      | some path => r.emit (.netGet path (.fileByHashLoaded cachePath))

/-! ## Concrete instances -/

/-- A handle of the upstream 64-bit build: storage root `/data/`, working
    directory `work`, both buffers zero behind their strings. -/
def handle (work : String) : FileSystem :=
  { dir := zeroBuf 256 (ascii "/data/"), work := zeroBuf 256 (ascii work) }

/-- A disk on which the storage root `/data/` is an empty directory and
    nothing else exists; any file can be created. -/
def emptyDisk : Disk where
  stat := fun p => if p = ascii "/data/" then some 0o040755 else none
  fopen_rb := fun _ => none
  fopen_wb := fun _ => true
  opendir := fun p => if p = ascii "/data/" then some [] else none
  malloc := fun _ => true
  fread := fun _ _ => []
  fwrite := fun _ bytes => bytes
  umask := 0o022

/-- A disk on which `/data/carts/` is a directory that holds only the
    entries `.` and `..`. -/
def cartsDisk : Disk where
  stat := fun p => if p = ascii "/data/carts/" then some 0o040755 else none
  fopen_rb := fun _ => none
  fopen_wb := fun _ => true
  opendir := fun p => if p = ascii "/data/carts/" then some [ascii ".", ascii ".."] else none
  malloc := fun _ => true
  fread := fun _ _ => []
  fwrite := fun _ bytes => bytes
  umask := 0o022

/-- An item callback that always answers `true` (continue). -/
def continueAll : ListCallback Unit := fun _ _ _ d _ => (true, d)

/-- An item callback that always answers `false` (stop). -/
def stopAtOnce : ListCallback Unit := fun _ _ _ d _ => (false, d)

/-- A done callback without effect. -/
def doneNothing : DoneCallback Unit := fun d => d

/-- A load callback that keeps the bytes it is given. -/
def keepBytes : LoadCallback (List Nat) := fun buffer _ _ => buffer

/-- A disk without any file on which no file can be opened for writing (the
    cache directory is missing). -/
def readOnlyDisk : Disk where
  stat := fun _ => none
  fopen_rb := fun _ => none
  fopen_wb := fun _ => false
  opendir := fun _ => none
  malloc := fun _ => true
  fread := fun _ _ => []
  fwrite := fun _ bytes => bytes
  umask := 0o022

/-- A disk that holds the one file `/data/.local/cache/abc.tic` with the
    bytes `1, 2, 3`. -/
def cachedDisk : Disk where
  stat := fun p => if p = ascii "/data/.local/cache/abc.tic" then some 0o100644 else none
  fopen_rb := fun p => if p = ascii "/data/.local/cache/abc.tic" then some [1, 2, 3] else none
  fopen_wb := fun _ => true
  opendir := fun _ => none
  malloc := fun _ => true
  fread := fun p _ => if p = ascii "/data/.local/cache/abc.tic" then [1, 2, 3] else []
  fwrite := fun _ bytes => bytes
  umask := 0o022

/-- The listing decoded from the payload
    `files = { {name="a", hash="h1", id=1}, {id=7}, {name="b", hash="h2"} }`:
    the second record has only an `id`, the third has no `id`. -/
def sampleListing : LuaState where
  folders := .nonTable
  files := .table
    [.record (.string (ascii "a")) (.string (ascii "h1")) (.integer 1),
     .record .nil .nil (.integer 7),
     .record (.string (ascii "b")) (.string (ascii "h2")) .nil]

/-- A script evaluator that decodes every payload to `sampleListing`. -/
def sampleLua : List Nat → Option LuaState := fun _ => some sampleListing

/-! ## Counting calls in a trace -/

/-- Number of item-callback invocations in a trace. -/
def itemCalls (t : List Event) : Nat :=
  (t.filter fun e => match e with
    | .item _ _ _ _ => true
    | _ => false).length

/-- Number of done-callback invocations in a trace. -/
def doneCalls (t : List Event) : Nat :=
  (t.filter fun e => match e with
    | .done => true
    | _ => false).length

/-- Number of load-callback invocations in a trace. -/
def loadCalls (t : List Event) : Nat :=
  (t.filter fun e => match e with
    | .load _ _ => true
    | _ => false).length

/-- Number of `netGet` calls in a trace. -/
def netGetCalls (t : List Event) : Nat :=
  (t.filter fun e => match e with
    | .netGet _ _ => true
    | _ => false).length

/-! ## Further notions for the decoder, the navigator and the scans -/

/-- Whether a call is an item-callback invocation. -/
def Event.isItem : Event → Bool
  | .item _ _ _ _ => true
  | _ => false

/-- The listing decoded from the payload `files = { 1 }`: the one element of
    `files` is a number, not a table. -/
def brokenListing : LuaState where
  folders := .nonTable
  files := .table [.nonTable]

/-- A script evaluator that decodes every payload to `brokenListing`. -/
def brokenLua : List Nat → Option LuaState := fun _ => some brokenListing

/-- A disk whose storage root `/data/` lists the regular file `a.tic` and then
    the entry `ghost`, on which `stat` fails (a dangling symbolic link). -/
def ghostDisk : Disk where
  stat := fun p =>
    if p = ascii "/data/" then some 0o040755
    else if p = ascii "/data/a.tic" then some 0o100644
    else none
  fopen_rb := fun p => if p = ascii "/data/a.tic" then some [] else none
  fopen_wb := fun _ => true
  opendir := fun p => if p = ascii "/data/" then some [ascii "a.tic", ascii "ghost"] else none
  malloc := fun _ => true
  fread := fun _ _ => []
  fwrite := fun _ bytes => bytes
  umask := 0o022

/-- The handles reachable from `createFileSystem` by calls of `fsChangeDir`,
    `fsDirBack` and `fsHomeDir` that stay within buffer capacity (each call
    is defined); their string arguments hold no zero byte. -/
inductive Reachable (B : Build) : FileSystem → Prop
  /-- The handle `createFileSystem(path, net)` returns. -/
  | create (path : List Nat) (fs : FileSystem) (hpath : 0 ∉ path)
      (h : createFileSystem B path = some fs) : Reachable B fs
  /-- After `fsChangeDir(fs, dir)`. -/
  | changeDir (fs fs1 : FileSystem) (dir : List Nat) (hdir : 0 ∉ dir)
      (hr : Reachable B fs) (h : fsChangeDir fs dir = some fs1) : Reachable B fs1
  /-- After `fsDirBack(fs)`. -/
  | dirBack (fs fs1 : FileSystem) (hr : Reachable B fs)
      (h : fsDirBack B fs = some fs1) : Reachable B fs1
  /-- After `fsHomeDir(fs)`. -/
  | homeDir (fs : FileSystem) (hr : Reachable B fs) : Reachable B (fsHomeDir fs)

/-- A buffer of `cap` bytes that holds a string and in which every byte from
    the terminator on is zero. -/
def ZeroTail (cap : Nat) (m : List Nat) : Prop :=
  m.length = cap ∧ ∃ w k, 0 ∉ w ∧ m = w ++ List.replicate (k + 1) 0

/-- A handle that no sequence of navigator calls produces: the work buffer
    holds `tic80.com`, its terminator, and then the bytes of `junk`. -/
def junkHandle : FileSystem :=
  { dir := zeroBuf 256 (ascii "/data/"),
    work := ascii "tic80.com" ++ 0 :: zeroBuf 246 (ascii "junk") }

/-! ## Instances at the limits of the buffers and of the environment -/

/-- A handle of the upstream 64-bit build: storage root `/data/`, working
    directory the string `work`, both buffers zero behind their strings. -/
def handleOf (work : List Nat) : FileSystem :=
  { dir := zeroBuf 256 (ascii "/data/"), work := zeroBuf 256 work }

/-- A hash of 240 bytes (the letter `a`). -/
def longHash : List Nat := List.replicate 240 97

/-- A file name of 250 bytes (the letter `a`). -/
def longName : List Nat := List.replicate 250 97

/-- A directory name of 239 bytes (the letter `a`). -/
def longSub : List Nat := List.replicate 239 97

/-- A disk on which every path is a regular file with the bytes `1, 2, 3`. -/
def everyPathDisk : Disk where
  stat := fun _ => some 0o100644
  fopen_rb := fun _ => some [1, 2, 3]
  fopen_wb := fun _ => true
  opendir := fun _ => none
  malloc := fun _ => true
  fread := fun _ _ => [1, 2, 3]
  fwrite := fun _ bytes => bytes
  umask := 0o022

/-- A disk that holds the one file `/data/.local/cache/abc.tic`, which is
    empty, in an environment where `malloc(0)` returns `NULL`. -/
def emptyFileDisk : Disk where
  stat := fun p => if p = ascii "/data/.local/cache/abc.tic" then some 0o100644 else none
  fopen_rb := fun p => if p = ascii "/data/.local/cache/abc.tic" then some [] else none
  fopen_wb := fun _ => true
  opendir := fun _ => none
  malloc := fun n => n != 0
  fread := fun _ _ => []
  fwrite := fun _ bytes => bytes
  umask := 0o022

/-- A disk without any file on which files can be created but no byte can be
    written (no space is left). -/
def fullDisk : Disk where
  stat := fun _ => none
  fopen_rb := fun _ => none
  fopen_wb := fun _ => true
  opendir := fun _ => none
  malloc := fun _ => true
  fread := fun _ _ => []
  fwrite := fun _ _ => []
  umask := 0o022

/-- A disk that holds the one file `/data/.local/cache/abc.tic` with the
    bytes `1, 2, 3`, on which `fread` fails and leaves three zero bytes in
    the buffer. -/
def badReadDisk : Disk where
  stat := fun p => if p = ascii "/data/.local/cache/abc.tic" then some 0o100644 else none
  fopen_rb := fun p => if p = ascii "/data/.local/cache/abc.tic" then some [1, 2, 3] else none
  fopen_wb := fun _ => true
  opendir := fun _ => none
  malloc := fun _ => true
  fread := fun _ _ => [0, 0, 0]
  fwrite := fun _ bytes => bytes
  umask := 0o022

/-- A disk on which every path is a regular file of `2^31` zero bytes, in an
    environment where `malloc` returns `NULL` for the sizes that are negative
    as `s32`. -/
def hugeFileDisk : Disk where
  stat := fun _ => some 0o100644
  fopen_rb := fun _ => some (List.replicate (2 ^ 31) 0)
  fopen_wb := fun _ => true
  opendir := fun _ => none
  malloc := fun n => decide (0 ≤ n)
  fread := fun _ _ => []
  fwrite := fun _ bytes => bytes
  umask := 0o022

/-! ## Lemmas on strings and buffers -/

theorem cstr_cons_zero (m : List Nat) : cstr (0 :: m) = [] := by
  simp [cstr, List.takeWhile_cons]

theorem cstr_cons_ne (a : Nat) (m : List Nat) (ha : a ≠ 0) :
    cstr (a :: m) = a :: cstr m := by
  simp [cstr, List.takeWhile_cons, ha]

theorem cstr_append_zero (w t : List Nat) (hw : 0 ∉ w) : cstr (w ++ 0 :: t) = w := by
  induction w with
  | nil => exact cstr_cons_zero t
  | cons a w ih =>
    have ha : a ≠ 0 := fun h => hw (by simp [h])
    have hw2 : 0 ∉ w := fun h => hw (by simp [h])
    rw [List.cons_append, cstr_cons_ne a _ ha, ih hw2]

theorem cstr_of_not_mem (w : List Nat) (hw : 0 ∉ w) : cstr w = w := by
  induction w with
  | nil => rfl
  | cons a w ih =>
    have ha : a ≠ 0 := fun h => hw (by simp [h])
    have hw2 : 0 ∉ w := fun h => hw (by simp [h])
    rw [cstr_cons_ne a _ ha, ih hw2]

theorem zero_not_mem_cstr (m : List Nat) : 0 ∉ cstr m := by
  intro h
  have := List.mem_takeWhile_imp h
  simp at this

theorem buffer_split (m : List Nat) (h : 0 ∈ m) :
    ∃ t, m = cstr m ++ 0 :: t := by
  induction m with
  | nil => simp at h
  | cons a m ih =>
    by_cases ha : a = 0
    · subst ha
      exact ⟨m, by rw [cstr_cons_zero]; rfl⟩
    · have hm : 0 ∈ m := by
        rcases List.mem_cons.1 h with h | h
        · exact absurd h.symm ha
        · exact h
      obtain ⟨t, ht⟩ := ih hm
      refine ⟨t, ?_⟩
      rw [cstr_cons_ne a _ ha, List.cons_append, ← ht]

theorem strlen_append_zero (w t : List Nat) (hw : 0 ∉ w) :
    strlen (w ++ 0 :: t) = some w.length := by
  simp [strlen, cstr_append_zero w t hw]

theorem strcmp_terminated (w t h : List Nat) (hw : 0 ∉ w) (hh : 0 ∉ h) :
    strcmp (w ++ 0 :: t) (h ++ [0]) = some 0 ∨
      ∃ v, v ≠ 0 ∧ strcmp (w ++ 0 :: t) (h ++ [0]) = some v := by
  induction w generalizing h with
  | nil =>
    cases h with
    | nil => left; simp [strcmp]
    | cons b h =>
      have hb : b ≠ 0 := fun e => hh (by simp [e])
      right
      refine ⟨(0 : Int) - (b : Int), ?_, ?_⟩
      · simp; exact hb
      · simp [strcmp, Ne.symm hb]
  | cons a w ih =>
    have ha : a ≠ 0 := fun e => hw (by simp [e])
    have hw2 : 0 ∉ w := fun e => hw (by simp [e])
    cases h with
    | nil =>
      right
      exact ⟨(a : Int) - 0, by simpa using ha, by simp [strcmp, ha]⟩
    | cons b h =>
      have hh2 : 0 ∉ h := fun e => hh (by simp [e])
      by_cases hab : a = b
      · subst hab
        simpa [strcmp, ha] using ih h hw2 hh2
      · right
        refine ⟨(a : Int) - (b : Int), ?_, by simp [strcmp, hab]⟩
        intro e
        exact hab (by omega)

theorem strcmp_eq_zero_iff (w t h : List Nat) (hw : 0 ∉ w) (hh : 0 ∉ h) :
    strcmp (w ++ 0 :: t) (h ++ [0]) = some 0 ↔ w = h := by
  induction w generalizing h with
  | nil =>
    cases h with
    | nil => simp [strcmp]
    | cons b h =>
      have hb : b ≠ 0 := fun e => hh (by simp [e])
      simp [strcmp, Ne.symm hb, hb]
  | cons a w ih =>
    have ha : a ≠ 0 := fun e => hw (by simp [e])
    have hw2 : 0 ∉ w := fun e => hw (by simp [e])
    cases h with
    | nil => simp [strcmp, ha]
    | cons b h =>
      have hh2 : 0 ∉ h := fun e => hh (by simp [e])
      by_cases hab : a = b
      · subst hab
        simpa [strcmp, ha] using ih h hw2 hh2
      · have : (a : Int) - (b : Int) ≠ 0 := fun e => hab (by omega)
        simp [strcmp, hab, this]

/-- Function `isPublicRoot` on a terminated working directory is string equality with
    the public namespace name. -/
theorem isPublicRoot_eq (B : Build) (fs : FileSystem) (w t : List Nat)
    (hwork : fs.work = w ++ 0 :: t) (hw : 0 ∉ w) (hh : 0 ∉ B.TIC_HOST) :
    isPublicRoot B fs = some (decide (w = B.TIC_HOST)) := by
  unfold isPublicRoot PublicDir
  rw [hwork]
  rcases strcmp_terminated w t B.TIC_HOST hw hh with h0 | ⟨v, hv, hs⟩
  · have := (strcmp_eq_zero_iff w t B.TIC_HOST hw hh).1 h0
    rw [h0]
    simp [this]
  · have hne : w ≠ B.TIC_HOST := by
      intro e
      have := (strcmp_eq_zero_iff w t B.TIC_HOST hw hh).2 e
      rw [hs] at this
      exact hv (by simpa using this)
    simp [hs, hv, hne]

/-! ## What `isPublic` compares -/

theorem firstDiff_eq_zero_iff (a b : List Nat) (hlen : a.length = b.length) :
    firstDiff a b = 0 ↔ a = b := by
  induction a generalizing b with
  | nil =>
    cases b with
    | nil => simp [firstDiff]
    | cons y ys => simp at hlen
  | cons x xs ih =>
    cases b with
    | nil => simp at hlen
    | cons y ys =>
      have hl : xs.length = ys.length := by simpa using hlen
      by_cases hxy : x = y
      · subst hxy
        simpa [firstDiff] using ih ys hl
      · have : (x : Int) - (y : Int) ≠ 0 := fun e => hxy (by omega)
        simp [firstDiff, hxy, this]

/-- The function `isPublic` compares the first `sizeof PublicDir - 1` bytes
    of the work buffer and of the literal, and no more. -/
theorem isPublic_eq_take (B : Build) (fs : FileSystem)
    (hwork : B.sizeofPtr - 1 ≤ fs.work.length)
    (hlit : B.sizeofPtr - 1 ≤ (PublicDir B).length) :
    isPublic B fs = some (decide
      (fs.work.take (B.sizeofPtr - 1) = (PublicDir B).take (B.sizeofPtr - 1))) := by
  unfold isPublic memcmp
  rw [if_pos ⟨hwork, hlit⟩]
  have hl : (fs.work.take (B.sizeofPtr - 1)).length
      = ((PublicDir B).take (B.sizeofPtr - 1)).length := by
    simp [List.length_take, Nat.min_eq_left hwork, Nat.min_eq_left hlit]
  have := firstDiff_eq_zero_iff _ _ hl
  by_cases he : fs.work.take (B.sizeofPtr - 1) = (PublicDir B).take (B.sizeofPtr - 1)
  · have h0 := this.2 he
    rw [h0]
    simp [he]
  · have hne : firstDiff (fs.work.take (B.sizeofPtr - 1))
        ((PublicDir B).take (B.sizeofPtr - 1)) ≠ 0 := fun e => he (this.1 e)
    simp only [Option.map_some', he, decide_False]
    simpa using hne

theorem take_zeroBuf (cap n : Nat) (w : List Nat) (hn : w.length = n) :
    (zeroBuf cap w).take n = w := by
  unfold zeroBuf
  rw [← hn, List.take_left]

/-- For every build whose public namespace name is longer than
    `sizeof PublicDir - 1` bytes, the working directory made of the first
    `sizeof PublicDir - 1` bytes of the name is reported as public although
    it does not begin with the name. -/
theorem isPublic_truncated_name (B : Build) (cap : Nat) (d : List Nat)
    (hlong : B.sizeofPtr - 1 < B.TIC_HOST.length) :
    isPublic B { dir := d, work := zeroBuf cap (B.TIC_HOST.take (B.sizeofPtr - 1)) }
      = some true ∧
    ¬ (B.TIC_HOST <+: B.TIC_HOST.take (B.sizeofPtr - 1)) := by
  have hlen : (B.TIC_HOST.take (B.sizeofPtr - 1)).length = B.sizeofPtr - 1 := by
    rw [List.length_take]; omega
  refine ⟨?_, ?_⟩
  · rw [isPublic_eq_take]
    · simp only [Option.some.injEq, decide_eq_true_eq]
      rw [take_zeroBuf cap _ _ hlen]
      unfold PublicDir
      rw [List.take_append_of_le_length (by omega)]
    · simp only [zeroBuf, List.length_append, List.length_replicate, hlen]
      omega
    · simp only [PublicDir, List.length_append, List.length_singleton]
      omega
  · intro h
    have := h.length_le
    omega

/-- Claim C1 fails on the code: with `TIC_HOST` = `tic80.com` on a 64-bit
    target, `isPublic` compares `sizeof PublicDir - 1` = 7 bytes, so the working
    directory `tic80.cx`, which does not begin with the public namespace name,
    is reported as public. -/
theorem isPublic_short_compare :
    fsGetDir (handle "tic80.cx") = some (ascii "tic80.cx") ∧
    ¬ (tic80.TIC_HOST <+: ascii "tic80.cx") ∧
    fsIsInPublicDir tic80 (handle "tic80.cx") = some true := by
  decide

/-! ## Lemmas on the navigator -/

theorem zeroRun_terminated (v t : List Nat) (hv : 0 ∉ v) :
    zeroRun (v ++ 0 :: t) = some (List.replicate v.length 0 ++ 0 :: t) := by
  induction v with
  | nil => simp [zeroRun]
  | cons a v ih =>
    have ha : a ≠ 0 := fun e => hv (by simp [e])
    have hv2 : 0 ∉ v := fun e => hv (by simp [e])
    simp [zeroRun, ha, ih hv2, List.replicate_succ]

theorem scanBack_eq (m : List Nat) (q n : Nat) (hq : q ≤ n)
    (hstop : q = 0 ∨ m.getD q 0 = 47)
    (hskip : ∀ i, q < i → i ≤ n → m.getD i 0 ≠ 47) : scanBack m n = q := by
  induction n with
  | zero =>
    have : q = 0 := by omega
    simp [this, scanBack]
  | succ n ih =>
    by_cases hqn : q = n + 1
    · have h47 : m.getD (n + 1) 0 = 47 := by
        rcases hstop with h | h
        · omega
        · rw [← hqn]; exact h
      rw [scanBack, if_neg (not_not.2 h47), hqn]
    · have hne : m.getD (n + 1) 0 ≠ 47 := hskip (n + 1) (by omega) (by omega)
      rw [scanBack, if_pos hne]
      exact ih (by omega) (fun i h1 h2 => hskip i h1 (by omega))

theorem getD_append_add (u rest : List Nat) (k d : Nat) :
    (u ++ rest).getD (u.length + k) d = rest.getD k d := by
  rw [List.getD_append_right _ _ _ _ (by omega)]
  simp

theorem getD_segment_ne (v t : List Nat) (k : Nat) (hk : k ≤ v.length) (hv : 47 ∉ v) :
    (v ++ 0 :: t).getD k 0 ≠ 47 := by
  by_cases h : k < v.length
  · rw [List.getD_append _ _ _ _ h, List.getD_eq_getElem _ _ h]
    intro e
    exact hv (e ▸ List.getElem_mem h)
  · have : k = v.length + 0 := by omega
    rw [this, getD_append_add]
    simp

theorem scanBack_slash (u v t : List Nat) (hv : 47 ∉ v) :
    scanBack (u ++ 47 :: v ++ 0 :: t) (u ++ 47 :: v).length = u.length := by
  apply scanBack_eq
  · simp
  · right
    have := getD_append_add u (47 :: (v ++ 0 :: t)) 0 0
    simpa using this
  · intro i h1 h2
    obtain ⟨k, rfl⟩ : ∃ k, i = u.length + (k + 1) := ⟨i - u.length - 1, by omega⟩
    have hk : k ≤ v.length := by simp at h2; omega
    have := getD_append_add u (47 :: (v ++ 0 :: t)) (k + 1) 0
    rw [List.append_assoc, List.cons_append, this, List.getD_cons_succ]
    exact getD_segment_ne v t k hk hv

theorem scanBack_noslash (w t : List Nat) (hw : 47 ∉ w) :
    scanBack (w ++ 0 :: t) w.length = 0 := by
  apply scanBack_eq
  · omega
  · left; rfl
  · intro i _ h2
    exact getD_segment_ne w t i h2 hw

theorem fsDirBack_home (B : Build) (fs : FileSystem) (t : List Nat)
    (hwork : fs.work = B.TIC_HOST ++ 0 :: t) (hh : 0 ∉ B.TIC_HOST) :
    fsDirBack B fs = some (fsHomeDir fs) := by
  simp [fsDirBack, isPublicRoot_eq B fs B.TIC_HOST t hwork hh hh]

theorem fsDirBack_slash (B : Build) (fs : FileSystem) (u v t : List Nat)
    (hwork : fs.work = u ++ 47 :: v ++ 0 :: t) (hu : 0 ∉ u) (hv0 : 0 ∉ v)
    (hv : 47 ∉ v) (hh : 0 ∉ B.TIC_HOST) (hne : u ++ 47 :: v ≠ B.TIC_HOST) :
    fsDirBack B fs =
      some { fs with work := u ++ (List.replicate (v.length + 1) 0 ++ 0 :: t) } := by
  have hw : 0 ∉ u ++ 47 :: v := by simp [hu, hv0]
  have hdrop : (u ++ 47 :: v ++ 0 :: t).drop u.length = (47 :: v) ++ 0 :: t := by
    rw [List.append_assoc, List.drop_left]
  have htake : (u ++ 47 :: v ++ 0 :: t).take u.length = u := by
    rw [List.append_assoc, List.take_left]
  have hz : zeroRun ((47 :: v) ++ 0 :: t) =
      some (List.replicate (v.length + 1) 0 ++ 0 :: t) := by
    have := zeroRun_terminated (47 :: v) t (by simp [hv0])
    simpa using this
  unfold fsDirBack
  rw [isPublicRoot_eq B fs (u ++ 47 :: v) t hwork hw hh]
  simp only [hne, decide_False, Option.some_bind, Bool.false_eq_true, if_false]
  rw [hwork, strlen_append_zero _ _ hw]
  simp only [Option.some_bind]
  rw [scanBack_slash u v t hv, hdrop, htake, hz]
  rfl

theorem fsDirBack_noslash (B : Build) (fs : FileSystem) (w t : List Nat)
    (hwork : fs.work = w ++ 0 :: t) (hw0 : 0 ∉ w) (hw : 47 ∉ w)
    (hh : 0 ∉ B.TIC_HOST) (hne : w ≠ B.TIC_HOST) :
    fsDirBack B fs = some { fs with work := List.replicate w.length 0 ++ 0 :: t } := by
  unfold fsDirBack
  rw [isPublicRoot_eq B fs w t hwork hw0 hh]
  simp only [hne, decide_False, Option.some_bind, Bool.false_eq_true, if_false]
  rw [hwork, strlen_append_zero _ _ hw0]
  simp only [Option.some_bind]
  rw [scanBack_noslash w t hw]
  simp [zeroRun_terminated w t hw0]

theorem fsGetDir_terminated (fs : FileSystem) (w t : List Nat)
    (hwork : fs.work = w ++ 0 :: t) (hw : 0 ∉ w) : fsGetDir fs = some w := by
  simp [fsGetDir, hwork, strlen_append_zero w t hw, cstr_append_zero w t hw]

theorem fsGetDir_split (fs : FileSystem) (w : List Nat) (h : fsGetDir fs = some w) :
    ∃ t, fs.work = w ++ 0 :: t ∧ 0 ∉ w := by
  unfold fsGetDir strlen at h
  by_cases h0 : 0 ∈ fs.work
  · simp only [h0, if_true, Option.map_some', Option.some.injEq] at h
    obtain ⟨t, ht⟩ := buffer_split fs.work h0
    exact ⟨t, by rw [← h]; exact ht, by rw [← h]; exact zero_not_mem_cstr _⟩
  · simp [h0] at h

theorem fsGetDir_zeros (d u t : List Nat) (k : Nat) (hu : 0 ∉ u) :
    fsGetDir { dir := d, work := u ++ (List.replicate k 0 ++ 0 :: t) } = some u := by
  cases k with
  | zero => exact fsGetDir_terminated _ u t (by simp) hu
  | succ k =>
    exact fsGetDir_terminated _ u (List.replicate k 0 ++ 0 :: t)
      (by simp [List.replicate_succ]) hu

theorem fsGetDir_fsHomeDir (fs : FileSystem) (h : fs.work ≠ []) :
    fsGetDir (fsHomeDir fs) = some [] := by
  obtain ⟨k, hk⟩ : ∃ k, fs.work.length = k + 1 :=
    ⟨fs.work.length - 1, by have := List.length_pos.2 h; omega⟩
  exact fsGetDir_terminated _ [] (List.replicate k 0)
    (by simp [fsHomeDir, hk, List.replicate_succ]) (by simp)

theorem exists_last_slash (w : List Nat) (h : 47 ∈ w) :
    ∃ u v, w = u ++ 47 :: v ∧ 47 ∉ v := by
  induction w with
  | nil => simp at h
  | cons a w ih =>
    by_cases hw : 47 ∈ w
    · obtain ⟨u, v, huv, hv⟩ := ih hw
      exact ⟨a :: u, v, by simp [huv], hv⟩
    · have ha : a = 47 := by
        rcases List.mem_cons.1 h with h | h
        · exact h.symm
        · exact absurd h hw
      exact ⟨[], w, by simp [ha], hw⟩

/-- The working directory after `fsDirBack`, by the shape of the one before. -/
theorem fsDirBack_cases (B : Build) (fs : FileSystem) (w : List Nat)
    (hdir : fsGetDir fs = some w) (hh : 0 ∉ B.TIC_HOST) :
    (w = B.TIC_HOST → (fsDirBack B fs).bind fsGetDir = some []) ∧
    (w ≠ B.TIC_HOST → ∀ u v, w = u ++ 47 :: v → 47 ∉ v →
      (fsDirBack B fs).bind fsGetDir = some u) ∧
    (w ≠ B.TIC_HOST → 47 ∉ w → (fsDirBack B fs).bind fsGetDir = some []) := by
  obtain ⟨t, hwork, hw⟩ := fsGetDir_split fs w hdir
  refine ⟨?_, ?_, ?_⟩
  · intro he
    subst he
    rw [fsDirBack_home B fs t hwork hh]
    exact fsGetDir_fsHomeDir fs (by simp [hwork])
  · intro hne u v huv hv
    subst huv
    have hu : 0 ∉ u := fun e => hw (by simp [e])
    have hv0 : 0 ∉ v := fun e => hw (by simp [e])
    rw [fsDirBack_slash B fs u v t hwork hu hv0 hv hh hne]
    exact fsGetDir_zeros _ u t _ hu
  · intro hne hns
    rw [fsDirBack_noslash B fs w t hwork hw hns hh hne]
    exact fsGetDir_zeros _ [] t _ (by simp)

theorem fsDirBack_root (B : Build) (fs : FileSystem) (hdir : fsGetDir fs = some [])
    (hh : 0 ∉ B.TIC_HOST) :
    ∃ fs1, fsDirBack B fs = some fs1 ∧ fsGetDir fs1 = some [] := by
  obtain ⟨h1, _, h3⟩ := fsDirBack_cases B fs [] hdir hh
  have h : (fsDirBack B fs).bind fsGetDir = some [] := by
    by_cases he : [] = B.TIC_HOST
    · exact h1 he
    · exact h3 he (by simp)
  cases hb : fsDirBack B fs with
  | none => simp [hb] at h
  | some fs1 => exact ⟨fs1, rfl, by simpa [hb] using h⟩

/-- Claim C6: `fsDirBack` sets the working directory `w` to the empty string
    when `w` is exactly the public namespace name; otherwise to the part of
    `w` in front of its last `'/'`, or to the empty string when `w` has no
    `'/'`.  From the empty (root) working directory it leaves it empty, also
    when called twice. -/
theorem fsDirBack_spec (B : Build) (fs : FileSystem) (w : List Nat)
    (hdir : fsGetDir fs = some w) (hh : 0 ∉ B.TIC_HOST) :
    (w = B.TIC_HOST → (fsDirBack B fs).bind fsGetDir = some []) ∧
    (w ≠ B.TIC_HOST → ∀ u v, w = u ++ 47 :: v → 47 ∉ v →
      (fsDirBack B fs).bind fsGetDir = some u) ∧
    (w ≠ B.TIC_HOST → 47 ∉ w → (fsDirBack B fs).bind fsGetDir = some []) ∧
    (w = [] → (fsDirBack B fs).bind fsGetDir = some [] ∧
      ((fsDirBack B fs).bind (fsDirBack B)).bind fsGetDir = some []) := by
  obtain ⟨h1, h2, h3⟩ := fsDirBack_cases B fs w hdir hh
  refine ⟨h1, h2, h3, ?_⟩
  intro hw
  subst hw
  obtain ⟨fs1, hb1, hd1⟩ := fsDirBack_root B fs hdir hh
  obtain ⟨fs2, hb2, hd2⟩ := fsDirBack_root B fs1 hd1 hh
  simp [hb1, hb2, hd1, hd2]

theorem strcat_terminated (w t s : List Nat) (hw : 0 ∉ w) (hfit : s.length ≤ t.length) :
    strcat (w ++ 0 :: t) s = some (w ++ s ++ 0 :: t.drop s.length) := by
  unfold strcat
  rw [strlen_append_zero w t hw]
  simp only [Option.some_bind, poke]
  rw [if_pos (by simp; omega)]
  congr 1
  have h1 : (w ++ 0 :: t).take w.length = w := List.take_left _ _
  have h2 : (w ++ 0 :: t).drop (w.length + (s ++ [0]).length) = t.drop s.length := by
    have : w.length + (s ++ [0]).length = w.length + (s.length + 1) := by simp
    rw [this, ← List.drop_drop, List.drop_left]
    simp
  rw [h1, h2]
  simp

theorem fsChangeDir_root (fs : FileSystem) (t a : List Nat) (hwork : fs.work = 0 :: t)
    (hfit : a.length ≤ t.length) :
    fsChangeDir fs a = some { fs with work := a ++ 0 :: t.drop a.length } := by
  have h := strcat_terminated [] t a (by simp) hfit
  simp only [List.nil_append] at h
  have hs : strlen (0 :: t) = some 0 := strlen_append_zero [] t (by simp)
  unfold fsChangeDir
  rw [hwork, hs]
  simp [h]

theorem fsChangeDir_sub (fs : FileSystem) (w t a : List Nat)
    (hwork : fs.work = w ++ 0 :: t) (hw : 0 ∉ w) (hne : w ≠ [])
    (hfit : a.length + 1 ≤ t.length) :
    fsChangeDir fs a =
      some { fs with work := w ++ 47 :: a ++ 0 :: (t.drop 1).drop a.length } := by
  have h1 := strcat_terminated w t [47] hw (by simp; omega)
  have h2 := strcat_terminated (w ++ [47]) (t.drop 1) a (by simp [hw])
    (by simp; omega)
  have hlen : w.length ≠ 0 := fun e => hne (List.length_eq_zero.1 e)
  unfold fsChangeDir
  rw [hwork, strlen_append_zero w t hw]
  simp only [Option.some_bind, hlen, ne_eq, not_false_eq_true, if_true]
  simp only [List.length_singleton] at h1
  rw [h1]
  simp only [Option.some_bind]
  rw [h2]
  simp

/-- Claim C2, as amended: for a working directory `w` and a component `a`
    without a `'/'` (the public namespace name being a top-level name without
    `'/'`), with the joined result fitting in the work buffer, `fsChangeDir(a)`
    followed by `fsDirBack()` leaves the working directory equal to `w`. -/
theorem fsChangeDir_fsDirBack (B : Build) (fs : FileSystem) (w a : List Nat)
    (hdir : fsGetDir fs = some w) (ha0 : 0 ∉ a) (ha : 47 ∉ a)
    (hh0 : 0 ∉ B.TIC_HOST) (hh : 47 ∉ B.TIC_HOST)
    (hfit : (if w = [] then a else w ++ 47 :: a).length < fs.work.length) :
    ((fsChangeDir fs a).bind (fsDirBack B)).bind fsGetDir = some w := by
  obtain ⟨t, hwork, hw⟩ := fsGetDir_split fs w hdir
  by_cases hroot : w = []
  · subst hroot
    simp only [if_true, hwork, List.nil_append, List.length_cons] at hfit
    rw [fsChangeDir_root fs t a (by simpa using hwork) (by omega)]
    simp only [Option.some_bind]
    have hd : fsGetDir { fs with work := a ++ 0 :: t.drop a.length } = some a :=
      fsGetDir_terminated _ a _ rfl ha0
    obtain ⟨h1, _, h3⟩ := fsDirBack_cases B _ a hd hh0
    by_cases he : a = B.TIC_HOST
    · exact h1 he
    · exact h3 he ha
  · simp only [hroot, if_false, hwork, List.length_append, List.length_cons] at hfit
    rw [fsChangeDir_sub fs w t a hwork hw hroot (by omega)]
    simp only [Option.some_bind]
    have hd : fsGetDir { fs with work := w ++ 47 :: a ++ 0 :: (t.drop 1).drop a.length }
        = some (w ++ 47 :: a) :=
      fsGetDir_terminated _ (w ++ 47 :: a) _ rfl (by simp [hw, ha0])
    obtain ⟨_, h2, _⟩ := fsDirBack_cases B _ (w ++ 47 :: a) hd hh0
    exact h2 (fun e => hh (by rw [← e]; simp)) w a rfl ha

/-- Claim C2 as stated fails: from the root, `fsChangeDir("b/c")` (not the
    public namespace name, fitting in the buffer) followed by `fsDirBack()`
    leaves the working directory `b`, not the empty one it started from. -/
theorem fsChangeDir_fsDirBack_counterexample :
    fsGetDir (handle "") = some [] ∧ ascii "b/c" ≠ tic80.TIC_HOST ∧
    ((fsChangeDir (handle "") (ascii "b/c")).bind (fsDirBack tic80)).bind fsGetDir
      = some (ascii "b") ∧
    ((fsChangeDir (handle "") (ascii "b/c")).bind (fsDirBack tic80)).bind fsGetDir
      ≠ fsGetDir (handle "") := by
  decide

/-- Instance of `fsChangeDir_fsDirBack`: from `carts`, entering `demo` and
    going back. -/
theorem fsChangeDir_fsDirBack_witness :
    fsGetDir (handle "carts") = some (ascii "carts") ∧
    ((fsChangeDir (handle "carts") (ascii "demo")).bind (fsDirBack tic80)).bind fsGetDir
      = some (ascii "carts") :=
  ⟨by decide,
   fsChangeDir_fsDirBack tic80 (handle "carts") (ascii "carts") (ascii "demo")
    (by decide) (by decide) (by decide) (by decide) (by decide) (by decide)⟩

/-- Instance of `fsDirBack_spec`: from `carts/demo` back to `carts`. -/
theorem fsDirBack_spec_witness :
    fsGetDir (handle "carts/demo") = some (ascii "carts/demo") ∧
    (fsDirBack tic80 (handle "carts/demo")).bind fsGetDir = some (ascii "carts") :=
  ⟨by decide,
   (fsDirBack_spec tic80 (handle "carts/demo") (ascii "carts/demo")
    (by decide) (by decide)).2.1 (by decide) (ascii "carts") (ascii "demo")
    (by decide) (by decide)⟩

theorem strlen_of_mem (m : List Nat) (h : 0 ∈ m) : strlen m = some (cstr m).length := by
  simp [strlen, h]

theorem fsGetRootFilePath_fits (B : Build) (fs : FileSystem) (name : List Nat)
    (hroot : 0 ∈ fs.dir) (hfit : (cstr fs.dir ++ name).length < B.TICNAME_MAX) :
    fsGetRootFilePath B fs name = some (cstr fs.dir ++ name) := by
  unfold fsGetRootFilePath sprintf
  rw [strlen_of_mem _ hroot]
  simp only [Option.some_bind]
  rw [if_pos (by omega)]

/-- Claim C7: on the POSIX build, with the results fitting in the path
    buffers, `fsGetFilePath` of a name `'/' :: n1` is `fsGetRootFilePath` of
    `n1`, whatever the working directory; of a name `n` without leading `'/'`
    under a non-empty working directory `w` it is `dir ++ w ++ "/" ++ n`; and
    under the empty working directory it is `fsGetRootFilePath(n) = dir ++ n`. -/
theorem fsGetFilePath_spec (B : Build) (fs : FileSystem) (n : List Nat)
    (hroot : 0 ∈ fs.dir) :
    (∀ n1, n = 47 :: n1 → (cstr fs.dir ++ n1).length < B.TICNAME_MAX →
      fsGetFilePath B fs n = fsGetRootFilePath B fs n1 ∧
      fsGetRootFilePath B fs n1 = some (cstr fs.dir ++ n1)) ∧
    (∀ w, fsGetDir fs = some w → n.head? ≠ some 47 → w ≠ [] →
      (cstr fs.dir ++ w ++ 47 :: n).length < B.TICNAME_MAX →
      fsGetFilePath B fs n = some (cstr fs.dir ++ w ++ 47 :: n)) ∧
    (fsGetDir fs = some [] → n.head? ≠ some 47 →
      (cstr fs.dir ++ n).length < B.TICNAME_MAX →
      fsGetFilePath B fs n = fsGetRootFilePath B fs n ∧
      fsGetRootFilePath B fs n = some (cstr fs.dir ++ n)) := by
  refine ⟨?_, ?_, ?_⟩
  · intro n1 hn hfit
    subst hn
    have hin : n1.length + 1 ≤ B.TICNAME_MAX := by
      simp only [List.length_append] at hfit; omega
    refine ⟨?_, fsGetRootFilePath_fits B fs n1 hroot hfit⟩
    simp [fsGetFilePath, sprintf, hin]
  · intro w hdir hn hw hfit
    obtain ⟨t, hwork, hw0⟩ := fsGetDir_split fs w hdir
    have hlen : w.length ≠ 0 := fun e => hw (List.length_eq_zero.1 e)
    have hin : (w ++ [47] ++ n).length + 1 ≤ B.TICNAME_MAX := by
      simp only [List.length_append, List.length_cons, List.length_singleton,
        List.length_nil] at hfit ⊢
      omega
    have hfit2 : (cstr fs.dir ++ (w ++ [47] ++ n)).length < B.TICNAME_MAX := by
      simpa using hfit
    unfold fsGetFilePath
    simp only [hn, if_false, hwork, strlen_append_zero w t hw0, Option.some_bind,
      cstr_append_zero w t hw0, hlen, ne_eq, not_false_eq_true, if_true, sprintf, hin]
    rw [fsGetRootFilePath_fits B fs _ hroot hfit2]
    simp
  · intro hdir hn hfit
    obtain ⟨t, hwork, _⟩ := fsGetDir_split fs [] hdir
    have hin : n.length + 1 ≤ B.TICNAME_MAX := by
      simp only [List.length_append] at hfit; omega
    refine ⟨?_, fsGetRootFilePath_fits B fs n hroot hfit⟩
    unfold fsGetFilePath
    simp only [hn, if_false, hwork, strlen_append_zero [] t (by simp), Option.some_bind,
      List.length_nil, ne_eq, not_true_eq_false, sprintf, hin, if_true]

/-- Instance of `fsGetFilePath_spec`: under `/data/` with working directory
    `carts`, the name `demo.tic` resolves to `/data/carts/demo.tic`. -/
theorem fsGetFilePath_spec_witness :
    fsGetFilePath tic80 (handle "carts") (ascii "demo.tic")
      = some (ascii "/data/carts/demo.tic") :=
  (fsGetFilePath_spec tic80 (handle "carts") (ascii "demo.tic") (by decide)).2.1
    (ascii "carts") (by decide) (by decide) (by decide) (by decide)

/-! ## Lemmas on the enumerator -/

theorem readdirLoop_trace {σ : Type} (B : Build) (path : List Nat)
    (callback : ListCallback σ) (folder : Bool) (entries : List (List Nat)) :
    ∀ (s : Nat) (r : Run σ),
      ∃ t, (readdirLoop B path callback folder entries s r).trace = r.trace ++ t := by
  induction entries with
  | nil => intro s r; exact ⟨[], by simp [readdirLoop]⟩
  | cons d_name rest ih =>
    intro s r
    rw [readdirLoop]
    by_cases hdot : d_name.head? ≠ some 46
    · rw [if_pos hdot]
      cases hp : sprintf B.TICNAME_MAX (path ++ d_name) with
      | none => exact ⟨[], by simp [Run.stop]⟩
      | some fullPath =>
        dsimp only
        by_cases ht : statTest (r.disk.stat fullPath) folder
            ((r.disk.stat fullPath).getD s) = true
        · rw [if_pos ht]
          by_cases hres : (!(r.callItem callback (.str d_name) .null 0 folder).1) = true
          · rw [if_pos hres]
            exact ⟨_, rfl⟩
          · rw [if_neg hres]
            obtain ⟨t, ht⟩ := ih ((r.disk.stat fullPath).getD s)
              (r.callItem callback (.str d_name) .null 0 folder).2
            exact ⟨Event.item (.str d_name) .null 0 folder :: t, by rw [ht]; simp [Run.callItem]⟩
        · rw [if_neg ht]
          exact ih _ r
    · rw [if_neg hdot]
      exact ih s r

theorem enumFiles_trace {σ : Type} (B : Build) (path : List Nat)
    (callback : ListCallback σ) (folder : Bool) (s0 : Nat) (r : Run σ) :
    ∃ t, (enumFiles B path callback folder s0 r).trace = r.trace ++ t := by
  unfold enumFiles
  dsimp only
  split
  · rename_i entries _
    obtain ⟨t, ht⟩ := readdirLoop_trace B path callback folder entries s0
      (r.emit (.opendir path))
    exact ⟨Event.opendir path :: t, by rw [ht]; simp [Run.emit]⟩
  · exact ⟨_, rfl⟩

theorem enumDispatch_trace {σ : Type} (B : Build) (fs : FileSystem)
    (onItem : ListCallback σ) (onDone : DoneCallback σ) (s1 s2 : Nat) (r : Run σ) :
    ∃ t, (enumDispatch B fs onItem onDone s1 s2 r).trace = r.trace ++ t := by
  unfold enumDispatch
  split
  · exact ⟨[], by simp [Run.stop]⟩
  · split
    · exact ⟨[], by simp [Run.stop]⟩
    · exact ⟨_, rfl⟩
  · split
    · exact ⟨[], by simp [Run.stop]⟩
    · rename_i path _
      obtain ⟨t1, h1⟩ := enumFiles_trace B path onItem true s1 r
      obtain ⟨t2, h2⟩ := enumFiles_trace B path onItem false s2
        (enumFiles B path onItem true s1 r)
      dsimp only
      split
      · split
        · exact ⟨t1 ++ t2 ++ [Event.done], by simp [Run.callDone, h1, h2]⟩
        · exact ⟨t1 ++ t2, by simp [h1, h2]⟩
      · exact ⟨t1, h1⟩

/-- Claim C5: at the drive root (`fs->work[0] == 0`), whatever the disk and
    the callbacks, the first call `fsEnumFilesAsync` makes is the item
    callback with the public namespace name, a `NULL` hash, id 0 and
    `dir = true`; when that invocation answers `false`, the whole trace is
    that invocation followed by one done callback: no further item, no
    `opendir`, no `netGet`. -/
theorem fsEnumFilesAsync_root {σ : Type} (B : Build) (fs : FileSystem)
    (onItem : ListCallback σ) (onDone : DoneCallback σ) (s1 s2 : Nat) (data : σ)
    (disk : Disk) (hroot : isRoot fs = true) :
    (fsEnumFilesAsync B fs onItem onDone s1 s2 (Run.start data disk)).trace.head?
      = some (Event.item (.str B.TIC_HOST) .null 0 true) ∧
    ((onItem (.str B.TIC_HOST) .null 0 data true).1 = false →
      (fsEnumFilesAsync B fs onItem onDone s1 s2 (Run.start data disk)).trace
        = [Event.item (.str B.TIC_HOST) .null 0 true, Event.done] ∧
      (fsEnumFilesAsync B fs onItem onDone s1 s2 (Run.start data disk)).status
        = Status.ok) := by
  unfold fsEnumFilesAsync
  simp only [hroot, if_true]
  refine ⟨?_, ?_⟩
  · split
    · simp [Run.callItem, Run.callDone, Run.start]
    · obtain ⟨t, ht⟩ := enumDispatch_trace B fs onItem onDone s1 s2
        ((Run.start data disk).callItem onItem (.str B.TIC_HOST) .null 0 true).2
      rw [ht]
      simp [Run.callItem, Run.start]
  · intro hstop
    simp [Run.callItem, Run.callDone, Run.start, hstop]

theorem readdirLoop_dots {σ : Type} (B : Build) (path : List Nat)
    (callback : ListCallback σ) (folder : Bool) (entries : List (List Nat))
    (hdots : ∀ e ∈ entries, e.head? = some 46) (s : Nat) (r : Run σ) :
    readdirLoop B path callback folder entries s r = r := by
  induction entries with
  | nil => rfl
  | cons d_name rest ih =>
    have hd : ¬ d_name.head? ≠ some 46 := not_not.2 (hdots d_name (by simp))
    rw [readdirLoop, if_neg hd]
    exact ih fun e he => hdots e (by simp [he])

theorem enumDispatch_empty_dir {σ : Type} (B : Build) (fs : FileSystem)
    (onItem : ListCallback σ) (onDone : DoneCallback σ) (s1 s2 : Nat) (r : Run σ)
    (path : List Nat) (entries : List (List Nat)) (hok : r.status = Status.ok)
    (hpub : isPublic B fs = some false) (hpath : fsGetFilePath B fs [] = some path)
    (hdir : r.disk.opendir path = some entries)
    (hdots : ∀ e ∈ entries, e.head? = some 46) :
    enumDispatch B fs onItem onDone s1 s2 r =
      (((r.emit (.opendir path)).emit (.opendir path)).callDone onDone) := by
  have h1 : enumFiles B path onItem true s1 r = r.emit (.opendir path) := by
    unfold enumFiles
    have : (r.emit (Event.opendir path)).disk.opendir path = some entries := hdir
    simp only [this]
    exact readdirLoop_dots B path onItem true entries hdots s1 _
  have h2 : enumFiles B path onItem false s2 (r.emit (.opendir path)) =
      (r.emit (.opendir path)).emit (.opendir path) := by
    unfold enumFiles
    have : ((r.emit (Event.opendir path)).emit (Event.opendir path)).disk.opendir path
        = some entries := hdir
    simp only [this]
    exact readdirLoop_dots B path onItem false entries hdots s2 _
  have hs1 : (r.emit (Event.opendir path)).status = Status.ok := hok
  have hs2 : ((r.emit (Event.opendir path)).emit (Event.opendir path)).status
      = Status.ok := hok
  unfold enumDispatch
  simp only [hpub, hpath, h1, h2, hs1, hs2, if_true]

/-- Claim C4, as amended: when the working directory is not detected as
    public and resolves to a local directory without entries (other than dot
    entries), `fsEnumFilesAsync` invokes the done callback exactly once; it
    invokes the item callback zero times when the working directory is
    non-empty, and exactly once (the public-namespace announcement) at the
    drive root. -/
theorem fsEnumFilesAsync_empty_dir {σ : Type} (B : Build) (fs : FileSystem)
    (onItem : ListCallback σ) (onDone : DoneCallback σ) (s1 s2 : Nat) (data : σ)
    (disk : Disk) (path : List Nat) (entries : List (List Nat))
    (hpub : isPublic B fs = some false) (hpath : fsGetFilePath B fs [] = some path)
    (hdir : disk.opendir path = some entries)
    (hdots : ∀ e ∈ entries, e.head? = some 46) :
    doneCalls (fsEnumFilesAsync B fs onItem onDone s1 s2 (Run.start data disk)).trace = 1 ∧
    itemCalls (fsEnumFilesAsync B fs onItem onDone s1 s2 (Run.start data disk)).trace
      = (if isRoot fs then 1 else 0) ∧
    (fsEnumFilesAsync B fs onItem onDone s1 s2 (Run.start data disk)).status
      = Status.ok := by
  unfold fsEnumFilesAsync
  by_cases hroot : isRoot fs = true
  · simp only [hroot, if_true]
    by_cases hres : (!((Run.start data disk).callItem onItem (.str B.TIC_HOST) .null 0
        true).1) = true
    · rw [if_pos hres]
      simp [Run.callItem, Run.callDone, Run.start, doneCalls, itemCalls]
    · rw [if_neg hres]
      rw [enumDispatch_empty_dir B fs onItem onDone s1 s2 _ path entries rfl hpub hpath
        hdir hdots]
      simp [Run.callItem, Run.callDone, Run.emit, Run.start, doneCalls, itemCalls]
  · have hf : isRoot fs = false := by simpa using hroot
    simp only [hf, Bool.false_eq_true, if_false]
    rw [enumDispatch_empty_dir B fs onItem onDone s1 s2 _ path entries rfl hpub hpath
      hdir hdots]
    simp [Run.callDone, Run.emit, Run.start, doneCalls, itemCalls]

/-- Claim C4 as stated fails at the drive root: the storage root `/data/` is
    an empty local directory, yet `fsEnumFilesAsync` invokes the item callback
    once, for the public namespace name. -/
theorem fsEnumFilesAsync_empty_root_counterexample :
    fsGetFilePath tic80 (handle "") [] = some (ascii "/data/") ∧
    emptyDisk.opendir (ascii "/data/") = some [] ∧
    (fsEnumFilesAsync tic80 (handle "") continueAll doneNothing 0 0
        (Run.start () emptyDisk)).trace =
      [Event.item (.str (ascii "tic80.com")) .null 0 true,
       Event.opendir (ascii "/data/"), Event.opendir (ascii "/data/"), Event.done] ∧
    itemCalls (fsEnumFilesAsync tic80 (handle "") continueAll doneNothing 0 0
        (Run.start () emptyDisk)).trace = 1 := by
  decide

/-- Instance of `fsEnumFilesAsync_empty_dir`: the working directory `carts`
    resolves to `/data/carts/`, which holds only `.` and `..`. -/
theorem fsEnumFilesAsync_empty_dir_witness :
    isPublic tic80 (handle "carts") = some false ∧
    cartsDisk.opendir (ascii "/data/carts/") = some [ascii ".", ascii ".."] ∧
    doneCalls (fsEnumFilesAsync tic80 (handle "carts") continueAll doneNothing 0 0
        (Run.start () cartsDisk)).trace = 1 ∧
    itemCalls (fsEnumFilesAsync tic80 (handle "carts") continueAll doneNothing 0 0
        (Run.start () cartsDisk)).trace = 0 :=
  have h := fsEnumFilesAsync_empty_dir tic80 (handle "carts") continueAll doneNothing 0 0 ()
    cartsDisk (ascii "/data/carts/") [ascii ".", ascii ".."] (by decide) (by decide)
    (by decide) (by decide)
  ⟨by decide, by decide, h.1, h.2.1.trans (by decide)⟩

/-- Instance of `fsEnumFilesAsync_root`: at the root with a callback that
    stops at once. -/
theorem fsEnumFilesAsync_root_witness :
    isRoot (handle "") = true ∧
    (fsEnumFilesAsync tic80 (handle "") stopAtOnce doneNothing 0 0
        (Run.start () emptyDisk)).trace =
      [Event.item (.str tic80.TIC_HOST) .null 0 true, Event.done] :=
  ⟨by decide,
   ((fsEnumFilesAsync_root tic80 (handle "") stopAtOnce doneNothing 0 0 () emptyDisk
    (by decide)).2 (by decide)).1⟩

/-! ## Remote listing decoder -/

/-- Claim C3 fails on the code: the `files` loop invokes the item callback
    whenever `id` is an integer, without regard to `hash` and `name`.  On the
    listing `{name="a", hash="h1", id=1}, {id=7}, {name="b", hash="h2"}` the
    record that has only an `id` is reported, with the never-written arrays
    `name` and `hash`; the record without `id` is skipped. -/
theorem onDirResponse_id_only :
    (onDirResponse tic80 sampleLua (.done (ascii "files = ..."))
        { item := continueAll, done := doneNothing } (Run.start () emptyDisk)).trace =
      [Event.item (.str (ascii "a")) (.str (ascii "h1")) 1 false,
       Event.item .indeterminate .indeterminate 7 false,
       Event.done] := by
  decide

/-! ## Hash-addressable artifact cache and file facade -/

theorem toS32_of_lt (n : Nat) (h : n < 2 ^ 31) : toS32 n = n := by
  unfold toS32
  have h1 : (2 : Int) ^ 31 = 2147483648 := by norm_num
  have h2 : (2 : Int) ^ 32 = 4294967296 := by norm_num
  have h3 : (2 : Nat) ^ 31 = 2147483648 := by norm_num
  rw [h3] at h
  rw [h1, h2]
  omega

theorem fsReadFile_of_read (disk : Disk) (path C : List Nat)
    (hfile : disk.fopen_rb path = some C) (hsize : C.length < 2 ^ 31)
    (hmalloc : disk.malloc C.length = true) (hread : disk.fread path C.length = C) :
    fsReadFile disk path = some (C, (C.length : Int)) := by
  unfold fsReadFile
  rw [hfile]
  simp only [toS32_of_lt C.length hsize, hmalloc, if_true, hread]

theorem fsReadFile_of_absent (disk : Disk) (path : List Nat)
    (hfile : disk.fopen_rb path = none) : fsReadFile disk path = none := by
  unfold fsReadFile
  rw [hfile]

/-- Claim C8, as amended: when the cache path `dir ++ TIC_CACHE ++ h ++ ".tic"`
    fits with its terminator in the `TICNAME_MAX` bytes of a path buffer, a
    file with contents `C` of fewer than `2^31` bytes can be opened there,
    `malloc` returns a buffer for it and `fread` reads the file into it,
    `fsLoadFileByHashAsync(h, cb)` makes exactly one call, the load callback
    with the bytes `C` and their length: no `netGet`, and the disk is left as
    it was. -/
theorem fsLoadFileByHashAsync_cached {σ : Type} (B : Build) (fs : FileSystem)
    (h C : List Nat) (cb : LoadCallback σ) (data : σ) (disk : Disk)
    (hroot : 0 ∈ fs.dir)
    (hfit : (cstr fs.dir ++ (B.TIC_CACHE ++ h ++ ascii ".tic")).length < B.TICNAME_MAX)
    (hfile : disk.fopen_rb (cstr fs.dir ++ (B.TIC_CACHE ++ h ++ ascii ".tic")) = some C)
    (hsize : C.length < 2 ^ 31)
    (hmalloc : disk.malloc C.length = true)
    (hread : disk.fread (cstr fs.dir ++ (B.TIC_CACHE ++ h ++ ascii ".tic")) C.length = C) :
    (fsLoadFileByHashAsync B fs h cb (Run.start data disk)).trace
      = [Event.load C C.length] ∧
    (fsLoadFileByHashAsync B fs h cb (Run.start data disk)).disk = disk ∧
    (fsLoadFileByHashAsync B fs h cb (Run.start data disk)).data = cb C C.length data ∧
    (fsLoadFileByHashAsync B fs h cb (Run.start data disk)).status = Status.ok := by
  have hin : (B.TIC_CACHE ++ h ++ ascii ".tic").length + 1 ≤ B.TICNAME_MAX := by
    simp only [List.length_append] at hfit ⊢; omega
  have hload : fsLoadRootFile B fs disk (B.TIC_CACHE ++ h ++ ascii ".tic")
      = some (some (C, (C.length : Int))) := by
    unfold fsLoadRootFile
    rw [fsGetRootFilePath_fits B fs _ hroot hfit]
    simp only [Option.map_some', fsReadFile_of_read disk _ C hfile hsize hmalloc hread]
  unfold fsLoadFileByHashAsync
  simp only [sprintf, hin, if_true]
  have hd : (Run.start data disk).disk = disk := rfl
  rw [hd, hload]
  simp [Run.callLoad, Run.start]

theorem fsLoadFileByHashAsync_of_null {σ : Type} (B : Build) (fs : FileSystem)
    (h : List Nat) (cb : LoadCallback σ) (r : Run σ) (hroot : 0 ∈ fs.dir)
    (hfit : (cstr fs.dir ++ (B.TIC_CACHE ++ h ++ ascii ".tic")).length < B.TICNAME_MAX)
    (hreq : (ascii "/cart/" ++ h ++ ascii "/cart.tic").length < B.TICNAME_MAX)
    (hnull : fsReadFile r.disk (cstr fs.dir ++ (B.TIC_CACHE ++ h ++ ascii ".tic")) = none) :
    fsLoadFileByHashAsync B fs h cb r =
      r.emit (.netGet (ascii "/cart/" ++ h ++ ascii "/cart.tic")
        (.fileByHashLoaded (B.TIC_CACHE ++ h ++ ascii ".tic"))) := by
  have hin : (B.TIC_CACHE ++ h ++ ascii ".tic").length + 1 ≤ B.TICNAME_MAX := by
    simp only [List.length_append] at hfit ⊢; omega
  have hload : fsLoadRootFile B fs r.disk (B.TIC_CACHE ++ h ++ ascii ".tic")
      = some none := by
    unfold fsLoadRootFile
    rw [fsGetRootFilePath_fits B fs _ hroot hfit]
    simp only [Option.map_some', hnull]
  unfold fsLoadFileByHashAsync
  simp only [sprintf, hin, if_true]
  rw [hload]
  simp only [if_pos (Nat.succ_le_of_lt hreq)]

theorem fsReadFile_hugeFile (path : List Nat) : fsReadFile hugeFileDisk path = none := by
  have hs : toS32 ((List.replicate (2 ^ 31) 0).length : Nat) = -2147483648 := by
    rw [List.length_replicate]
    unfold toS32
    norm_num
  unfold fsReadFile
  have hf : hugeFileDisk.fopen_rb path = some (List.replicate (2 ^ 31) 0) := rfl
  rw [hf]
  simp only [hs]
  have hm : hugeFileDisk.malloc (-2147483648) = false := by
    unfold hugeFileDisk
    simp
  rw [hm]
  rfl

/-- Claim C8 as stated fails.  With a hash of 240 bytes the cache path does
    not fit in `cachePath[256]`: the `sprintf` overruns the array and the
    callback is not invoked, although a file is at every path.  Where
    `malloc(0)` returns `NULL`, an empty cache file for `abc` is taken for a
    miss: the one call is a `netGet`.  When `fread` fails, the callback
    receives the bytes the failed read left in the buffer, not those of the
    file.  And a cache file of `2^31` bytes has a negative `s32` size, for
    which `malloc` returns `NULL`: again the one call is a `netGet`. -/
theorem fsLoadFileByHashAsync_cached_counterexample :
    everyPathDisk.fopen_rb (ascii "/data/" ++ (tic80.TIC_CACHE ++ longHash ++ ascii ".tic"))
      = some [1, 2, 3] ∧
    (fsLoadFileByHashAsync tic80 (handle "") longHash keepBytes
        (Run.start [] everyPathDisk)).status = Status.undefined ∧
    loadCalls (fsLoadFileByHashAsync tic80 (handle "") longHash keepBytes
        (Run.start [] everyPathDisk)).trace = 0 ∧
    emptyFileDisk.fopen_rb (ascii "/data/.local/cache/abc.tic") = some [] ∧
    (fsLoadFileByHashAsync tic80 (handle "") (ascii "abc") keepBytes
        (Run.start [] emptyFileDisk)).trace =
      [Event.netGet (ascii "/cart/abc/cart.tic")
        (.fileByHashLoaded (ascii ".local/cache/abc.tic"))] ∧
    badReadDisk.fopen_rb (ascii "/data/.local/cache/abc.tic") = some [1, 2, 3] ∧
    (fsLoadFileByHashAsync tic80 (handle "") (ascii "abc") keepBytes
        (Run.start [] badReadDisk)).trace = [Event.load [0, 0, 0] 3] ∧
    hugeFileDisk.fopen_rb (ascii "/data/.local/cache/abc.tic")
      = some (List.replicate (2 ^ 31) 0) ∧
    (fsLoadFileByHashAsync tic80 (handle "") (ascii "abc") keepBytes
        (Run.start [] hugeFileDisk)).trace =
      [Event.netGet (ascii "/cart/abc/cart.tic")
        (.fileByHashLoaded (ascii ".local/cache/abc.tic"))] := by
  refine ⟨by decide, by decide, by decide, by decide, by decide, by decide, by decide,
    rfl, ?_⟩
  rw [fsLoadFileByHashAsync_of_null tic80 (handle "") (ascii "abc") keepBytes
    (Run.start [] hugeFileDisk) (by decide) (by decide) (by decide)
    (fsReadFile_hugeFile _)]
  decide

/-- Instance of `fsLoadFileByHashAsync_cached`: the hash `abc` is cached with
    the bytes `1, 2, 3`. -/
theorem fsLoadFileByHashAsync_cached_witness :
    cachedDisk.fopen_rb (ascii "/data/.local/cache/abc.tic") = some [1, 2, 3] ∧
    (fsLoadFileByHashAsync tic80 (handle "") (ascii "abc") keepBytes
        (Run.start [] cachedDisk)).trace = [Event.load [1, 2, 3] 3] :=
  ⟨by decide,
   (fsLoadFileByHashAsync_cached tic80 (handle "") (ascii "abc") [1, 2, 3] keepBytes []
    cachedDisk (by decide) (by decide) (by decide) (by decide) (by decide)
    (by decide)).1⟩

theorem fsSaveRootFile_no_overwrite (B : Build) (fs : FileSystem) (disk : Disk)
    (name data path : List Nat) (hpath : fsGetRootFilePath B fs name = some path) :
    fsSaveRootFile B fs disk name data false =
      some (if (disk.stat path).isSome then (false, disk)
        else if disk.fopen_wb path then (true, disk.written path data)
        else (false, disk)) := by
  unfold fsSaveRootFile fsExists fsWriteFile
  rw [hpath]
  simp

/-- Claim C9, as amended: when the cache path of `h` and the request
    `"/cart/" ++ h ++ "/cart.tic"` fit with their terminators in `TICNAME_MAX`
    bytes and no file is at the cache path (it can neither be opened for
    reading nor be seen by `stat`), `fsLoadFileByHashAsync(h, cb)` makes one
    call, a `netGet` for that request, and leaves the disk as it is.  When
    the request completes with `Done` and bytes `Bs`, `cb` is invoked exactly
    once with `Bs` and their length; the file at the cache path holds `Bs`
    afterwards provided it can be opened for writing and `fwrite` and
    `fclose` succeed, and the disk is unchanged when it cannot be opened.
    When the request completes with `Error`, `cb` is not invoked and the disk
    is unchanged. -/
theorem fsLoadFileByHashAsync_miss {σ : Type} (B : Build) (fs : FileSystem)
    (h Bs : List Nat) (cb : LoadCallback σ) (data : σ) (disk : Disk)
    (hroot : 0 ∈ fs.dir)
    (hfit : (cstr fs.dir ++ (B.TIC_CACHE ++ h ++ ascii ".tic")).length < B.TICNAME_MAX)
    (hreq : (ascii "/cart/" ++ h ++ ascii "/cart.tic").length < B.TICNAME_MAX)
    (hmiss : disk.fopen_rb (cstr fs.dir ++ (B.TIC_CACHE ++ h ++ ascii ".tic")) = none)
    (hnone : disk.stat (cstr fs.dir ++ (B.TIC_CACHE ++ h ++ ascii ".tic")) = none) :
    fsLoadFileByHashAsync B fs h cb (Run.start data disk) =
      (Run.start data disk).emit (.netGet (ascii "/cart/" ++ h ++ ascii "/cart.tic")
        (.fileByHashLoaded (B.TIC_CACHE ++ h ++ ascii ".tic"))) ∧
    (fileByHashLoaded B (.done Bs)
        { fs := fs, done := cb, cachePath := B.TIC_CACHE ++ h ++ ascii ".tic" }
        (fsLoadFileByHashAsync B fs h cb (Run.start data disk))).trace =
      [Event.netGet (ascii "/cart/" ++ h ++ ascii "/cart.tic")
        (.fileByHashLoaded (B.TIC_CACHE ++ h ++ ascii ".tic")),
       Event.load Bs Bs.length] ∧
    (disk.fopen_wb (cstr fs.dir ++ (B.TIC_CACHE ++ h ++ ascii ".tic")) = true →
      disk.fwrite (cstr fs.dir ++ (B.TIC_CACHE ++ h ++ ascii ".tic")) Bs = Bs →
      (fileByHashLoaded B (.done Bs)
        { fs := fs, done := cb, cachePath := B.TIC_CACHE ++ h ++ ascii ".tic" }
        (fsLoadFileByHashAsync B fs h cb (Run.start data disk))).disk.fopen_rb
          (cstr fs.dir ++ (B.TIC_CACHE ++ h ++ ascii ".tic")) = some Bs) ∧
    (disk.fopen_wb (cstr fs.dir ++ (B.TIC_CACHE ++ h ++ ascii ".tic")) = false →
      (fileByHashLoaded B (.done Bs)
        { fs := fs, done := cb, cachePath := B.TIC_CACHE ++ h ++ ascii ".tic" }
        (fsLoadFileByHashAsync B fs h cb (Run.start data disk))).disk = disk) ∧
    fileByHashLoaded B .error
        { fs := fs, done := cb, cachePath := B.TIC_CACHE ++ h ++ ascii ".tic" }
        (fsLoadFileByHashAsync B fs h cb (Run.start data disk)) =
      fsLoadFileByHashAsync B fs h cb (Run.start data disk) := by
  have hin : (B.TIC_CACHE ++ h ++ ascii ".tic").length + 1 ≤ B.TICNAME_MAX := by
    simp only [List.length_append] at hfit ⊢; omega
  have hpath := fsGetRootFilePath_fits B fs _ hroot hfit
  have hload : fsLoadRootFile B fs disk (B.TIC_CACHE ++ h ++ ascii ".tic")
      = some none := by
    unfold fsLoadRootFile
    rw [hpath]
    simp only [Option.map_some', fsReadFile_of_absent disk _ hmiss]
  have hd : (Run.start data disk).disk = disk := rfl
  have hissue : fsLoadFileByHashAsync B fs h cb (Run.start data disk) =
      (Run.start data disk).emit (.netGet (ascii "/cart/" ++ h ++ ascii "/cart.tic")
        (.fileByHashLoaded (B.TIC_CACHE ++ h ++ ascii ".tic"))) := by
    unfold fsLoadFileByHashAsync
    simp only [sprintf, hin, if_true]
    rw [hd, hload]
    simp only [if_pos (Nat.succ_le_of_lt hreq)]
  have hsave := fsSaveRootFile_no_overwrite B fs disk (B.TIC_CACHE ++ h ++ ascii ".tic")
    Bs _ hpath
  rw [hnone] at hsave
  simp only [Option.isSome_none, Bool.false_eq_true, if_false] at hsave
  refine ⟨hissue, ?_, ?_, ?_, ?_⟩
  · rw [hissue]
    unfold fileByHashLoaded
    simp only [Run.emit, Run.start, hsave]
    simp [Run.callLoad]
  · intro hwb hwr
    rw [hissue]
    unfold fileByHashLoaded
    simp only [Run.emit, Run.start, hsave, hwb, if_true]
    simp only [Run.callLoad, Disk.written, if_true]
    rw [hwr]
  · intro hwb
    rw [hissue]
    unfold fileByHashLoaded
    simp only [Run.emit, Run.start, hsave, hwb, Bool.false_eq_true, if_false]
    simp [Run.callLoad]
  · rfl

/-- Claim C9 as stated fails.  When the cache file cannot be opened for
    writing (a disk without a cache directory), the fetch of `abc` completes
    with `Done` and the bytes `1, 2, 3`, the callback receives them, and there
    is still no file at the cache path.  With a hash of 240 bytes the cache
    path does not fit in `cachePath[256]`: the `sprintf` overruns the array
    and no `netGet` is issued.  And on a disk without space the cache file is
    created but holds none of the fetched bytes. -/
theorem fsLoadFileByHashAsync_miss_counterexample :
    readOnlyDisk.fopen_rb (ascii "/data/.local/cache/abc.tic") = none ∧
    readOnlyDisk.stat (ascii "/data/.local/cache/abc.tic") = none ∧
    (fsLoadFileByHashAsync tic80 (handle "") (ascii "abc") keepBytes
        (Run.start [] readOnlyDisk)).trace =
      [Event.netGet (ascii "/cart/abc/cart.tic")
        (.fileByHashLoaded (ascii ".local/cache/abc.tic"))] ∧
    (fileByHashLoaded tic80 (.done [1, 2, 3])
        { fs := handle "", done := keepBytes, cachePath := ascii ".local/cache/abc.tic" }
        (fsLoadFileByHashAsync tic80 (handle "") (ascii "abc") keepBytes
          (Run.start [] readOnlyDisk))).trace =
      [Event.netGet (ascii "/cart/abc/cart.tic")
        (.fileByHashLoaded (ascii ".local/cache/abc.tic")),
       Event.load [1, 2, 3] 3] ∧
    (fileByHashLoaded tic80 (.done [1, 2, 3])
        { fs := handle "", done := keepBytes, cachePath := ascii ".local/cache/abc.tic" }
        (fsLoadFileByHashAsync tic80 (handle "") (ascii "abc") keepBytes
          (Run.start [] readOnlyDisk))).disk.fopen_rb
        (ascii "/data/.local/cache/abc.tic") = none ∧
    (fsLoadFileByHashAsync tic80 (handle "") longHash keepBytes
        (Run.start [] readOnlyDisk)).status = Status.undefined ∧
    netGetCalls (fsLoadFileByHashAsync tic80 (handle "") longHash keepBytes
        (Run.start [] readOnlyDisk)).trace = 0 ∧
    (fileByHashLoaded tic80 (.done [1, 2, 3])
        { fs := handle "", done := keepBytes, cachePath := ascii ".local/cache/abc.tic" }
        (fsLoadFileByHashAsync tic80 (handle "") (ascii "abc") keepBytes
          (Run.start [] fullDisk))).disk.fopen_rb
        (ascii "/data/.local/cache/abc.tic") = some [] := by
  decide

/-- Instance of `fsLoadFileByHashAsync_miss`: on the empty disk the fetch of
    `abc` leaves the fetched bytes at the cache path. -/
theorem fsLoadFileByHashAsync_miss_witness :
    emptyDisk.fopen_rb (ascii "/data/.local/cache/abc.tic") = none ∧
    (fileByHashLoaded tic80 (.done [1, 2, 3])
        { fs := handle "", done := keepBytes, cachePath := ascii ".local/cache/abc.tic" }
        (fsLoadFileByHashAsync tic80 (handle "") (ascii "abc") keepBytes
          (Run.start [] emptyDisk))).disk.fopen_rb
        (ascii "/data/.local/cache/abc.tic") = some [1, 2, 3] :=
  ⟨by decide,
   (fsLoadFileByHashAsync_miss tic80 (handle "") (ascii "abc") [1, 2, 3] keepBytes []
    emptyDisk (by decide) (by decide) (by decide) (by decide) (by decide)).2.2.1
    (by decide) (by decide)⟩

/-- Claim C10, as amended: for a name that `fsGetFilePath` resolves within
    its path buffers to `path`, `fsSaveFile(name, data, overwrite = false)`
    returns `false` and leaves the disk unchanged when something exists at
    `path`; with `overwrite = true`, or with nothing at `path`, it returns
    `true` whenever `path` can be opened for writing, and the file at `path`
    then holds `data` provided `fwrite` and `fclose` succeed.  The same holds
    for `fsSaveRootFile` with `path` the result of `fsGetRootFilePath(name)`. -/
theorem fsSaveFile_spec (B : Build) (fs : FileSystem) (disk : Disk)
    (name data : List Nat) :
    (∀ path, fsGetFilePath B fs name = some path →
      ((disk.stat path).isSome = true →
        fsSaveFile B fs disk name data false = some (false, disk)) ∧
      (∀ overwrite, overwrite = true ∨ disk.stat path = none →
        disk.fopen_wb path = true →
        fsSaveFile B fs disk name data overwrite = some (true, disk.written path data) ∧
        (disk.fwrite path data = data →
          (disk.written path data).fopen_rb path = some data))) ∧
    (∀ path, fsGetRootFilePath B fs name = some path →
      ((disk.stat path).isSome = true →
        fsSaveRootFile B fs disk name data false = some (false, disk)) ∧
      (∀ overwrite, overwrite = true ∨ disk.stat path = none →
        disk.fopen_wb path = true →
        fsSaveRootFile B fs disk name data overwrite
          = some (true, disk.written path data) ∧
        (disk.fwrite path data = data →
          (disk.written path data).fopen_rb path = some data))) := by
  refine ⟨?_, ?_⟩
  · intro path hpath
    refine ⟨?_, ?_⟩
    · intro hex
      simp [fsSaveFile, fsExistsFile, fsExists, hpath, hex]
    · intro overwrite hcase hwb
      refine ⟨?_, fun hwr => by simp [Disk.written, hwr]⟩
      rcases hcase with hov | hno
      · simp [fsSaveFile, hov, hpath, fsWriteFile, hwb]
      · cases overwrite <;>
          simp [fsSaveFile, fsExistsFile, fsExists, hpath, hno, fsWriteFile, hwb]
  · intro path hpath
    refine ⟨?_, ?_⟩
    · intro hex
      simp [fsSaveRootFile, fsExists, hpath, hex]
    · intro overwrite hcase hwb
      refine ⟨?_, fun hwr => by simp [Disk.written, hwr]⟩
      rcases hcase with hov | hno
      · simp [fsSaveRootFile, hov, hpath, fsWriteFile, hwb]
      · simp [fsSaveRootFile, fsExists, hpath, hno, fsWriteFile, hwb]

/-- Claim C10 as stated fails.  A name of 250 bytes under the storage root
    `/data/` does not fit in `path[256]`: `fsSaveFile` with `overwrite = true`
    overruns the array instead of writing (249 bytes fit).  And on a disk
    without space the file `x` can be opened for writing, `fsSaveFile`
    returns `true`, and the file does not hold the data. -/
theorem fsSaveFile_spec_counterexample :
    (fsSaveFile tic80 (handle "") emptyDisk longName [9] true).isSome = false ∧
    (fsSaveFile tic80 (handle "") emptyDisk (List.replicate 249 97) [9] true).map Prod.fst
      = some true ∧
    fsGetFilePath tic80 (handle "") (ascii "x") = some (ascii "/data/x") ∧
    fullDisk.fopen_wb (ascii "/data/x") = true ∧
    (fsSaveFile tic80 (handle "") fullDisk (ascii "x") [9] true).map Prod.fst
      = some true ∧
    (fsSaveFile tic80 (handle "") fullDisk (ascii "x") [9] true).bind
        (fun res => res.2.fopen_rb (ascii "/data/x")) = some [] := by
  decide

/-- Instance of `fsSaveFile_spec`: saving `abc.tic` under the cache directory
    without overwrite fails on the disk that already holds it. -/
theorem fsSaveFile_spec_witness :
    fsGetFilePath tic80 (handle ".local/cache") (ascii "abc.tic")
      = some (ascii "/data/.local/cache/abc.tic") ∧
    fsSaveFile tic80 (handle ".local/cache") cachedDisk (ascii "abc.tic") [9] false
      = some (false, cachedDisk) :=
  ⟨by decide,
   ((fsSaveFile_spec tic80 (handle ".local/cache") cachedDisk (ascii "abc.tic") [9]).1
    (ascii "/data/.local/cache/abc.tic") (by decide)).1 (by decide)⟩

/-! ## Completion of the remote listing -/

theorem foldersLoop_items {σ : Type} (netDirData : NetDirData σ) (elems : List LuaElem) :
    ∀ r : Run σ, ∃ t, (foldersLoop netDirData elems r).trace = r.trace ++ t ∧
      ∀ e ∈ t, e.isItem = true := by
  induction elems with
  | nil => intro r; exact ⟨[], by simp [foldersLoop]⟩
  | cons el rest ih =>
    intro r
    cases el with
    | nonTable => exact ⟨[], by simp [foldersLoop, Run.stop]⟩
    | record name hash id =>
      rw [foldersLoop]
      by_cases hs : lua_isstring name = true
      · rw [if_pos hs]
        obtain ⟨t, ht, hi⟩ := ih (r.callItem netDirData.item
          (.str (lua_tostring name)) .null 0 true).2
        refine ⟨Event.item (.str (lua_tostring name)) .null 0 true :: t, ?_, ?_⟩
        · rw [ht]; simp [Run.callItem]
        · intro e he
          rcases List.mem_cons.1 he with h | h
          · rw [h]; rfl
          · exact hi e h
      · rw [if_neg hs]
        exact ih r

theorem filesLoop_items {σ : Type} (B : Build) (netDirData : NetDirData σ)
    (elems : List LuaElem) :
    ∀ r : Run σ, ∃ t, (filesLoop B netDirData elems r).trace = r.trace ++ t ∧
      ∀ e ∈ t, e.isItem = true := by
  induction elems with
  | nil => intro r; exact ⟨[], by simp [filesLoop]⟩
  | cons el rest ih =>
    intro r
    cases el with
    | nonTable => exact ⟨[], by simp [filesLoop, Run.stop]⟩
    | record name hash id =>
      rw [filesLoop]
      cases fieldArray B hash with
      | none => exact ⟨[], by simp [Run.stop]⟩
      | some hashArg =>
        dsimp only
        cases fieldArray B name with
        | none => exact ⟨[], by simp [Run.stop]⟩
        | some nameArg =>
          dsimp only
          by_cases hi : lua_isinteger id = true
          · rw [if_pos hi]
            obtain ⟨t, ht, hit⟩ := ih (r.callItem netDirData.item nameArg hashArg
              (lua_tointeger_s32 id) false).2
            refine ⟨Event.item nameArg hashArg (lua_tointeger_s32 id) false :: t, ?_, ?_⟩
            · rw [ht]; simp [Run.callItem]
            · intro e he
              rcases List.mem_cons.1 he with h | h
              · rw [h]; rfl
              · exact hit e h
          · rw [if_neg hi]
            exact ih r

theorem overTable_items {σ : Type} (g : LuaGlobal)
    (loop : List LuaElem → Run σ → Run σ)
    (hloop : ∀ elems r, ∃ t, (loop elems r).trace = r.trace ++ t ∧
      ∀ e ∈ t, e.isItem = true) (r : Run σ) :
    ∃ t, (overTable g loop r).trace = r.trace ++ t ∧ ∀ e ∈ t, e.isItem = true := by
  cases g with
  | table elems => exact hloop elems r
  | nonTable => exact ⟨[], by simp [overTable]⟩

/-- On `HttpGetError` the handler makes one call, the done callback. -/
theorem onDirResponse_error {σ : Type} (B : Build) (lua : List Nat → Option LuaState)
    (netDirData : NetDirData σ) (r : Run σ) (hok : r.status = Status.ok) :
    onDirResponse B lua .error netDirData r = r.callDone netDirData.done := by
  simp [onDirResponse, hok]

/-- On `HttpGetProgress` the handler makes no call. -/
theorem onDirResponse_progress {σ : Type} (B : Build) (lua : List Nat → Option LuaState)
    (netDirData : NetDirData σ) (r : Run σ) :
    onDirResponse B lua .progress netDirData r = r := by
  simp [onDirResponse]

/-- On `HttpGetDone` with a payload that is empty or fails to load or run,
    the handler makes one call, the done callback. -/
theorem onDirResponse_no_listing {σ : Type} (B : Build) (lua : List Nat → Option LuaState)
    (data : List Nat) (netDirData : NetDirData σ) (r : Run σ)
    (hok : r.status = Status.ok) (hlua : netLuaInit lua data = none) :
    onDirResponse B lua (.done data) netDirData r = r.callDone netDirData.done := by
  simp [onDirResponse, hlua, hok]

/-- Whenever the handler returns from an `HttpGetDone` response, it has
    invoked item callbacks only, followed by exactly one done callback. -/
theorem onDirResponse_done_returns {σ : Type} (B : Build)
    (lua : List Nat → Option LuaState) (data : List Nat) (netDirData : NetDirData σ)
    (r : Run σ) (hok : r.status = Status.ok)
    (hret : (onDirResponse B lua (.done data) netDirData r).status = Status.ok) :
    ∃ t, (onDirResponse B lua (.done data) netDirData r).trace
        = r.trace ++ t ++ [Event.done] ∧ ∀ e ∈ t, e.isItem = true := by
  unfold onDirResponse at hret ⊢
  cases hl : netLuaInit lua data with
  | none =>
    simp only [hl, hok, if_true]
    exact ⟨[], by simp [Run.callDone]⟩
  | some L =>
    simp only [hl] at hret ⊢
    obtain ⟨t1, h1, hi1⟩ := overTable_items L.folders (foldersLoop netDirData)
      (foldersLoop_items netDirData) r
    by_cases hs1 : (overTable L.folders (foldersLoop netDirData) r).status = Status.ok
    · simp only [hs1, if_true] at hret ⊢
      obtain ⟨t2, h2, hi2⟩ := overTable_items L.files (filesLoop B netDirData)
        (filesLoop_items B netDirData) (overTable L.folders (foldersLoop netDirData) r)
      by_cases hs2 : (overTable L.files (filesLoop B netDirData)
          (overTable L.folders (foldersLoop netDirData) r)).status = Status.ok
      · simp only [hs2, if_true]
        refine ⟨t1 ++ t2, ?_, ?_⟩
        · simp [Run.callDone, h2, h1]
        · intro e he
          rcases List.mem_append.1 he with h | h
          · exact hi1 e h
          · exact hi2 e h
      · simp only [hs2, if_false] at hret
    · simp only [hs1, if_false] at hret

/-- Claim C11 fails on the code: on an `HttpGetDone` response whose payload
    is `files = { 1 }`, `lua_getfield` is applied to the number, the Lua error
    it raises is not inside a protected call, and the process ends: the done
    callback is not invoked. -/
theorem onDirResponse_abort :
    netLuaInit brokenLua (ascii "files = ...") = some brokenListing ∧
    (onDirResponse tic80 brokenLua (.done (ascii "files = ..."))
        { item := continueAll, done := doneNothing } (Run.start () emptyDisk)).status
      = Status.aborted ∧
    doneCalls (onDirResponse tic80 brokenLua (.done (ascii "files = ..."))
        { item := continueAll, done := doneNothing } (Run.start () emptyDisk)).trace
      = 0 := by
  decide

/-! ## The test of the local scans -/

/-- After a successful `stat` the test of `enumFiles` looks at the mode just
    read: directory for the folder scan, regular file for the file scan. -/
theorem statTest_of_success (m s : Nat) (folder : Bool) :
    statTest (some m) folder ((some m).getD s) = if folder then S_ISDIR m else S_ISREG m := by
  cases folder <;> simp [statTest]

/-- After a failing `stat` the test of `enumFiles` is `S_ISREG` of the stale
    mode, in the folder scan as well as in the file scan. -/
theorem statTest_of_failure (s : Nat) (folder : Bool) :
    statTest none folder ((none : Option Nat).getD s) = S_ISREG s := by
  cases folder <;> simp [statTest]

/-- Claim C13 fails on the code: in the directory `/data/` that lists the
    regular file `a.tic` and then `ghost`, on which `stat` fails, the folder
    scan reports `ghost` (and not `a.tic`), and the file scan reports `a.tic`
    and `ghost`: after the failing `stat` the test is `S_ISREG` of the mode
    the previous `stat` left in `s`. -/
theorem enumFiles_reports_failed_stat :
    ghostDisk.stat (ascii "/data/ghost") = none ∧
    (enumFiles tic80 (ascii "/data/") continueAll true 0 (Run.start () ghostDisk)).trace =
      [Event.opendir (ascii "/data/"),
       Event.item (.str (ascii "ghost")) .null 0 true] ∧
    (enumFiles tic80 (ascii "/data/") continueAll false 0 (Run.start () ghostDisk)).trace =
      [Event.opendir (ascii "/data/"),
       Event.item (.str (ascii "a.tic")) .null 0 false,
       Event.item (.str (ascii "ghost")) .null 0 false] := by
  decide

/-! ## Reachable handles keep the work buffer zero behind its string -/

theorem zeros_cons_zeros (j k : Nat) :
    List.replicate j 0 ++ 0 :: List.replicate k 0 = List.replicate (j + k + 1) 0 := by
  induction j with
  | zero => simp [List.replicate_succ]
  | succ j ih =>
    have : j + 1 + k + 1 = (j + k + 1) + 1 := by omega
    rw [this, List.replicate_succ, List.replicate_succ, List.cons_append, ih]

theorem strcat_overrun (w t s : List Nat) (hw : 0 ∉ w) (hfit : t.length < s.length) :
    strcat (w ++ 0 :: t) s = none := by
  unfold strcat
  rw [strlen_append_zero w t hw]
  simp only [Option.some_bind, poke]
  rw [if_neg (by simp; omega)]

theorem strcat_zeroTail (cap : Nat) (m m1 s : List Nat) (hm : ZeroTail cap m)
    (hs : 0 ∉ s) (h : strcat m s = some m1) : ZeroTail cap m1 := by
  obtain ⟨hlen, w, k, hw, rfl⟩ := hm
  rw [List.replicate_succ] at h hlen
  by_cases hfit : s.length ≤ (List.replicate k 0).length
  · rw [strcat_terminated w _ s hw hfit] at h
    have hm1 : m1 = w ++ s ++ 0 :: List.drop s.length (List.replicate k 0) :=
      (Option.some.inj h).symm
    simp only [List.length_replicate] at hfit
    refine ⟨?_, w ++ s, k - s.length, by simp [hw, hs], ?_⟩
    · rw [hm1]
      simp only [List.length_append, List.length_cons, List.length_drop,
        List.length_replicate] at hlen ⊢
      omega
    · rw [hm1, List.drop_replicate, List.replicate_succ]
  · rw [strcat_overrun w _ s hw (by omega)] at h
    exact absurd h (by simp)

theorem fsChangeDir_zeroTail (cap : Nat) (fs fs1 : FileSystem) (dir : List Nat)
    (hm : ZeroTail cap fs.work) (hdir : 0 ∉ dir) (h : fsChangeDir fs dir = some fs1) :
    ZeroTail cap fs1.work := by
  unfold fsChangeDir at h
  cases hn : strlen fs.work with
  | none => simp [hn] at h
  | some n =>
    simp only [hn, Option.some_bind] at h
    by_cases hz : n ≠ 0
    · rw [if_pos hz] at h
      cases h1 : strcat fs.work [47] with
      | none => simp [h1] at h
      | some work1 =>
        have hz1 := strcat_zeroTail cap fs.work work1 [47] hm (by simp) h1
        simp only [h1, Option.some_bind] at h
        cases h2 : strcat work1 dir with
        | none => simp [h2] at h
        | some work2 =>
          simp only [h2, Option.map_some', Option.some.injEq] at h
          rw [← h]
          exact strcat_zeroTail cap work1 work2 dir hz1 hdir h2
    · rw [if_neg hz] at h
      simp only [Option.some_bind] at h
      cases h2 : strcat fs.work dir with
      | none => simp [h2] at h
      | some work2 =>
        simp only [h2, Option.map_some', Option.some.injEq] at h
        rw [← h]
        exact strcat_zeroTail cap fs.work work2 dir hm hdir h2

theorem fsHomeDir_zeroTail (cap : Nat) (fs : FileSystem) (hm : ZeroTail cap fs.work) :
    ZeroTail cap (fsHomeDir fs).work := by
  obtain ⟨hlen, w, k, _, hwork⟩ := hm
  have hpos : fs.work.length = (fs.work.length - 1) + 1 := by
    rw [hwork]; simp only [List.length_append, List.length_replicate]; omega
  refine ⟨by simp [fsHomeDir, hlen], [], fs.work.length - 1, by simp, ?_⟩
  simp only [fsHomeDir, List.nil_append]
  rw [← hpos]

theorem fsDirBack_zeroTail (B : Build) (fs fs1 : FileSystem)
    (hm : ZeroTail B.TICNAME_MAX fs.work) (hh : 0 ∉ B.TIC_HOST)
    (h : fsDirBack B fs = some fs1) : ZeroTail B.TICNAME_MAX fs1.work := by
  obtain ⟨hlen, w, k, hw, hwork⟩ := id hm
  have hwork1 : fs.work = w ++ 0 :: List.replicate k 0 := by
    rw [hwork, List.replicate_succ]
  by_cases he : w = B.TIC_HOST
  · subst he
    rw [fsDirBack_home B fs _ hwork1 hh] at h
    rw [← Option.some.inj h]
    exact fsHomeDir_zeroTail _ fs hm
  · by_cases hs : 47 ∈ w
    · obtain ⟨u, v, huv, hv⟩ := exists_last_slash w hs
      subst huv
      have hu : 0 ∉ u := fun e => hw (by simp [e])
      have hv0 : 0 ∉ v := fun e => hw (by simp [e])
      rw [fsDirBack_slash B fs u v _ hwork1 hu hv0 hv hh he] at h
      rw [← Option.some.inj h]
      refine ⟨?_, u, v.length + 1 + k, hu, ?_⟩
      · rw [hwork1] at hlen
        simp only [List.length_append, List.length_cons, List.length_replicate] at hlen ⊢
        omega
      · simp only
        rw [zeros_cons_zeros]
    · rw [fsDirBack_noslash B fs w _ hwork1 hw hs hh he] at h
      rw [← Option.some.inj h]
      refine ⟨?_, [], w.length + k, by simp, ?_⟩
      · rw [hwork1] at hlen
        simp only [List.length_append, List.length_cons, List.length_replicate] at hlen ⊢
        omega
      · simp only [List.nil_append]
        rw [zeros_cons_zeros]

theorem createFileSystem_zeroTail (B : Build) (path : List Nat) (fs : FileSystem)
    (h : createFileSystem B path = some fs) : ZeroTail B.TICNAME_MAX fs.work := by
  unfold createFileSystem at h
  cases h1 : strcpy (List.replicate B.TICNAME_MAX 0) path with
  | none => simp [h1] at h
  | some dir =>
    have hpos : 1 ≤ B.TICNAME_MAX := by
      unfold strcpy poke at h1
      by_cases hf : 0 + (path ++ [0]).length ≤ (List.replicate B.TICNAME_MAX 0).length
      · simp at hf; omega
      · rw [if_neg hf] at h1
        exact absurd h1 (by simp)
    simp only [h1, Option.some_bind] at h
    cases hl : path.getLast? with
    | none => simp [hl] at h
    | some c =>
      simp only [hl] at h
      have hwork : fs.work = List.replicate B.TICNAME_MAX 0 := by
        cases hd : (if c ≠ 47 then strcat dir [47] else some dir) with
        | none => simp [hd] at h
        | some dir1 =>
          simp only [hd, Option.map_some', Option.some.injEq] at h
          rw [← h]
      refine ⟨by simp [hwork], [], B.TICNAME_MAX - 1, by simp, ?_⟩
      rw [hwork, List.nil_append]
      congr 1
      omega

/-- In every reachable handle the work buffer has `TICNAME_MAX` bytes, holds a
    string, and is zero from the terminator on. -/
theorem reachable_zeroTail (B : Build) (fs : FileSystem) (hh : 0 ∉ B.TIC_HOST)
    (hr : Reachable B fs) : ZeroTail B.TICNAME_MAX fs.work := by
  induction hr with
  | create path fs _ h => exact createFileSystem_zeroTail B path fs h
  | changeDir fs fs1 dir hdir _ h ih => exact fsChangeDir_zeroTail _ fs fs1 dir ih hdir h
  | dirBack fs fs1 _ h ih => exact fsDirBack_zeroTail B fs fs1 ih hh h
  | homeDir fs _ ih => exact fsHomeDir_zeroTail _ fs ih

/-! ## Enumeration inside the public namespace -/

theorem isRoot_of_name (fs : FileSystem) (w rest : List Nat) (hwork : fs.work = w ++ rest)
    (hne : w ≠ []) (hw : 0 ∉ w) : isRoot fs = false := by
  cases w with
  | nil => exact absurd rfl hne
  | cons a w =>
    have ha : a ≠ 0 := fun e => hw (by simp [e])
    simp [isRoot, hwork, ha]

theorem isPublic_of_name (B : Build) (fs : FileSystem) (rest : List Nat)
    (hwork : fs.work = B.TIC_HOST ++ rest) (hptr : B.sizeofPtr - 1 ≤ B.TIC_HOST.length) :
    isPublic B fs = some true := by
  rw [isPublic_eq_take B fs (by rw [hwork]; simp; omega) (by simp [PublicDir]; omega)]
  simp only [Option.some.injEq, decide_eq_true_eq]
  rw [hwork, PublicDir, List.take_append_of_le_length hptr,
    List.take_append_of_le_length hptr]

theorem dirRequest_of_name (B : Build) (fs : FileSystem) (c : Nat) (s t : List Nat)
    (hwork : fs.work = B.TIC_HOST ++ c :: (s ++ 0 :: t)) (hs : 0 ∉ s)
    (hreq : (ascii "/api?fn=dir&path=" ++ s).length < B.TICNAME_MAX) :
    dirRequest B fs = some (ascii "/api?fn=dir&path=" ++ s) := by
  have hdrop : fs.work.drop (B.TIC_HOST.length + 1) = s ++ 0 :: t := by
    rw [hwork, ← List.drop_drop, List.drop_left]
    rfl
  unfold dirRequest
  rw [if_pos (by rw [hwork]; simp), hdrop, strlen_append_zero s t hs,
    cstr_append_zero s t hs]
  simp only [Option.some_bind, sprintf]
  rw [if_pos (Nat.succ_le_of_lt hreq)]

/-- Claim C12, as amended: in every handle reachable from `createFileSystem`
    by `fsChangeDir`, `fsDirBack` and `fsHomeDir` calls within buffer
    capacity, the work buffer is zero from its terminator on; and when its
    working directory is the public namespace name, alone or followed by
    `"/"` and a subpath `s`, and the request `"/api?fn=dir&path=" ++ s` fits
    with its terminator in the `TICNAME_MAX` bytes of `request`,
    `fsEnumFilesAsync` makes exactly one call, the `netGet` of that request
    (with `s` empty for the name alone) handled by `onDirResponse`: no item
    callback, no `opendir`, no done callback.  The build is one whose name
    literal is non-empty, has no zero byte, is at least `sizeof PublicDir - 1`
    bytes long and leaves room for two more bytes in the buffer. -/
theorem fsEnumFilesAsync_public {σ : Type} (B : Build) (fs : FileSystem)
    (onItem : ListCallback σ) (onDone : DoneCallback σ) (s1 s2 : Nat) (data : σ)
    (disk : Disk) (hr : Reachable B fs) (hh0 : 0 ∉ B.TIC_HOST) (hne : B.TIC_HOST ≠ [])
    (hptr : B.sizeofPtr - 1 ≤ B.TIC_HOST.length)
    (hcap : B.TIC_HOST.length + 2 ≤ B.TICNAME_MAX) :
    ZeroTail B.TICNAME_MAX fs.work ∧
    ∀ s, (fsGetDir fs = some B.TIC_HOST ∧ s = [] ∨
          fsGetDir fs = some (B.TIC_HOST ++ 47 :: s)) →
      (ascii "/api?fn=dir&path=" ++ s).length < B.TICNAME_MAX →
      (fsEnumFilesAsync B fs onItem onDone s1 s2 (Run.start data disk)).trace
        = [Event.netGet (ascii "/api?fn=dir&path=" ++ s) .onDirResponse] ∧
      (fsEnumFilesAsync B fs onItem onDone s1 s2 (Run.start data disk)).status
        = Status.ok := by
  have hz := reachable_zeroTail B fs hh0 hr
  refine ⟨hz, ?_⟩
  intro s hdir hreq
  obtain ⟨hlen, w, k, hw, hwork⟩ := hz
  have hwork1 : fs.work = w ++ 0 :: List.replicate k 0 := by
    rw [hwork, List.replicate_succ]
  have hgd : fsGetDir fs = some w := fsGetDir_terminated fs w _ hwork1 hw
  obtain ⟨c, t, hshape, hs0⟩ :
      ∃ c t, fs.work = B.TIC_HOST ++ c :: (s ++ 0 :: t) ∧ 0 ∉ s := by
    rcases hdir with ⟨hd, hs⟩ | hd
    · rw [hgd] at hd
      have hwe : w = B.TIC_HOST := Option.some.inj hd
      subst hwe
      subst hs
      have hk : k = (k - 1) + 1 := by
        rw [hwork1] at hlen
        simp only [List.length_append, List.length_cons, List.length_replicate] at hlen
        omega
      refine ⟨0, List.replicate (k - 1) 0, ?_, by simp⟩
      rw [hwork1, hk, List.replicate_succ]
      simp
    · rw [hgd] at hd
      have hwe : w = B.TIC_HOST ++ 47 :: s := Option.some.inj hd
      subst hwe
      refine ⟨47, List.replicate k 0, ?_, fun e => hw (by simp [e])⟩
      rw [hwork1]
      simp
  have hroot := isRoot_of_name fs B.TIC_HOST _ hshape hne hh0
  have hpub := isPublic_of_name B fs _ hshape hptr
  have hrq := dirRequest_of_name B fs c s t hshape hs0 hreq
  unfold fsEnumFilesAsync enumDispatch
  simp [hroot, hpub, hrq, Run.emit, Run.start]

/-- Claim C12 as stated fails: the handle created for `/data`, after
    `fsChangeDir("tic80.com")` and `fsChangeDir` of a name of 239 bytes, is
    reachable within the capacity of the work buffer (249 bytes and the
    terminator), but the request of 256 bytes and its terminator does not
    fit in `request[256]`: the `sprintf` overruns the array and no `netGet` is
    issued. -/
theorem fsEnumFilesAsync_public_counterexample :
    Reachable tic80 (handleOf (tic80.TIC_HOST ++ 47 :: longSub)) ∧
    fsGetDir (handleOf (tic80.TIC_HOST ++ 47 :: longSub))
      = some (tic80.TIC_HOST ++ 47 :: longSub) ∧
    (fsEnumFilesAsync tic80 (handleOf (tic80.TIC_HOST ++ 47 :: longSub)) continueAll
        doneNothing 0 0 (Run.start () emptyDisk)).status = Status.undefined ∧
    netGetCalls (fsEnumFilesAsync tic80 (handleOf (tic80.TIC_HOST ++ 47 :: longSub))
        continueAll doneNothing 0 0 (Run.start () emptyDisk)).trace = 0 :=
  ⟨Reachable.changeDir (handle "tic80.com") _ longSub (by decide)
      (Reachable.changeDir (handle "") _ (ascii "tic80.com") (by decide)
        (Reachable.create (ascii "/data") _ (by decide) (by decide))
        (by decide))
      (by decide),
   by decide, by decide, by decide⟩

/-- Instance of `fsEnumFilesAsync_public`: the handle created for `/data`,
    after `fsChangeDir("tic80.com")` and `fsChangeDir("games")`. -/
theorem fsEnumFilesAsync_public_witness :
    fsGetDir (handle "tic80.com/games") = some (ascii "tic80.com/games") ∧
    (fsEnumFilesAsync tic80 (handle "tic80.com/games") continueAll doneNothing 0 0
        (Run.start () emptyDisk)).trace
      = [Event.netGet (ascii "/api?fn=dir&path=games") .onDirResponse] :=
  ⟨by decide,
   ((fsEnumFilesAsync_public tic80 (handle "tic80.com/games") continueAll doneNothing 0 0
      () emptyDisk
      (Reachable.changeDir (handle "tic80.com") _ (ascii "games") (by decide)
        (Reachable.changeDir (handle "") _ (ascii "tic80.com") (by decide)
          (Reachable.create (ascii "/data") _ (by decide) (by decide))
          (by decide))
        (by decide))
      (by decide) (by decide) (by decide) (by decide)).2
    (ascii "games") (Or.inr (by decide)) (by decide)).1⟩

/-- Without the zero bytes the request is another one: in a work buffer that
    holds `tic80.com`, its terminator and then `junk`, the request path is
    `junk`, although the working directory is the public namespace name. -/
theorem dirRequest_reads_behind_terminator :
    fsGetDir junkHandle = some tic80.TIC_HOST ∧
    junkHandle.work.length = tic80.TICNAME_MAX ∧
    dirRequest tic80 junkHandle = some (ascii "/api?fn=dir&path=junk") := by
  decide

end TicFs

open TicFs

